import Mathlib

/-!
Verification development for the AIPokerServer repository (src/game.py and
src/server.py), as a shallow embedding in Lean 4.

Conventions of the embedding:
* Python `int` is `Int`; list indices are `Nat`.
* Python exceptions (TypeError, IndexError, ValueError, ZeroDivisionError)
  are modelled explicitly: a function that can raise returns the state
  reached at the raise point together with an error marker, since Python
  mutations made before the raise persist on the object.
* Python card ranks are strings; `Card.RANK_VALUES` maps them to 2..14.
  Looking up a string outside the 13 valid ranks raises KeyError in Python;
  the embedding returns 0 for such strings, which never occur in any input
  considered here.
-/

namespace Poker

/-- `Card` from game.py: a rank string and a suit string. -/
structure Card where
  rank : String
  suit : String
deriving DecidableEq, Repr

/-- `Card.RANK_VALUES[rank]` from game.py: ranks 2..10, J, Q, K, A mapped to
2..14 (values assigned by enumeration order starting at 2).  Unknown rank
strings raise KeyError in Python; here they yield 0 and are never used. -/
def rankValue (r : String) : Int :=
  if r = "2" then 2 else if r = "3" then 3 else if r = "4" then 4
  else if r = "5" then 5 else if r = "6" then 6 else if r = "7" then 7
  else if r = "8" then 8 else if r = "9" then 9 else if r = "10" then 10
  else if r = "J" then 11 else if r = "Q" then 12 else if r = "K" then 13
  else if r = "A" then 14 else 0

/-- `Player` from game.py.  `hand` is `some cards` normally; `Deck.draw`
returns `None` when too few cards remain and `start_game` stores that result
directly, so a hand can be `none`. -/
structure PPlayer where
  name : String
  chips : Int
  hand : Option (List Card)
  active : Bool
  current_bet : Int
  total_contribution : Int
deriving DecidableEq, Repr

/-- `Player.__init__(name, chips=1000)` from game.py (hand starts as `[]`). -/
def mkPlayer (name : String) : PPlayer :=
  { name := name, chips := 1000, hand := some [], active := true,
    current_bet := 0, total_contribution := 0 }

/-- `TexasHoldEm` state from game.py.  The deck is the list of remaining
cards; `Deck.draw` pops from the end of the list as Python `list.pop` does. -/
structure GameState where
  deck : List Card
  players : List PPlayer
  community_cards : List Card
  pot : Int
  dealer_index : Nat
  phase : String
  current_turn_index : Nat
  current_bet : Int
deriving DecidableEq, Repr

/-- `TexasHoldEm.__init__(players)` from game.py, with the shuffled deck
supplied as a parameter (the shuffle is the only source of randomness). -/
def mkGame (names : List String) (deck : List Card) : GameState :=
  { deck := deck, players := names.map mkPlayer, community_cards := [],
    pot := 0, dealer_index := 0, phase := "pre-flop",
    current_turn_index := 0, current_bet := 0 }

/-- Result of a `take_action` call: a returned `(success, message)` pair, or
an uncaught Python exception carrying its message. -/
inductive PyResult where
  | ret (success : Bool) (msg : String)
  | exn (err : String)
deriving DecidableEq, Repr

/-- In-place update of the `i`-th list element, mirroring mutation of a
Python list element (or of the object it holds). -/
def modifyAt (i : Nat) (f : α → α) : List α → List α
  | [] => []
  | x :: xs =>
    match i with
    | 0 => f x :: xs
    | n + 1 => x :: modifyAt n f xs

/-- A default player, used only to totalize list indexing; every indexing in
the embedding is guarded so the default is never read. -/
def dfltPlayer : PPlayer :=
  { name := "", chips := 0, hand := none, active := false,
    current_bet := 0, total_contribution := 0 }

/-- `self.players[i]` (all uses in the embedding are in range). -/
def getP (ps : List PPlayer) (i : Nat) : PPlayer := ps.getD i dfltPlayer

/-! ## Hand evaluator (`TexasHoldEm.evaluate_hand`)

`evaluate_hand` reads its input only through multisets (Counter of rank
values, Counter of suits, sorted set of distinct ranks, and an item sort
whose key `(-count, -rank)` never ties), so the initial `sorted` of
`all_cards` has no influence on the result and is not re-modelled. -/

/-- Insertion step for sorting with a strict "comes before" test. -/
def insBy (before : α → α → Bool) (x : α) : List α → List α
  | [] => [x]
  | y :: ys => if before x y then x :: y :: ys else y :: insBy before x ys

/-- Insertion sort with a strict "comes before" test (used where Python
sorts by a key on which ties are impossible). -/
def sortBy (before : α → α → Bool) : List α → List α
  | [] => []
  | x :: xs => insBy before x (sortBy before xs)

/-- Deduplication (keeping last occurrences); the callers sort afterwards,
so which occurrence survives is immaterial. -/
def dedupL [DecidableEq α] : List α → List α
  | [] => []
  | x :: xs => if x ∈ xs then dedupL xs else x :: dedupL xs

/-- `sorted(set(v), reverse=True)`: distinct values in descending order. -/
def sortedRanksDesc (vals : List Int) : List Int :=
  sortBy (fun a b => a > b) (dedupL vals)

/-- `any(ranks[i] - ranks[i+4] == 4 for i in range(len(ranks) - 4))`. -/
def straightWindow (ranks : List Int) : Bool :=
  (ranks.zip (ranks.drop 4)).any (fun p => p.1 - p.2 = 4)

/-- `sorted(rank_counts.items(), key=lambda x: (-x[1], -x[0]))`: pairs
`(rank value, count)` by descending count, then descending rank. -/
def sortedCounts (vals : List Int) : List (Int × Int) :=
  sortBy (fun a b => a.2 > b.2 || (a.2 = b.2 && a.1 > b.1))
    ((dedupL vals).map (fun r => (r, (vals.count r : Int))))

/-- `max(suits.values())`: the largest suit multiplicity (0 on no cards;
Python `max` raises on an empty sequence, which needs at least one card,
and every input considered has five or more cards). -/
def maxSuitCount (cards : List Card) : Int :=
  ((dedupL (cards.map (·.suit))).map
    (fun st => ((cards.map (·.suit)).count st : Int))).foldl max 0

/-- The body of `TexasHoldEm.evaluate_hand` on the combined card list
(`player.hand + self.community_cards`), translated clause by clause.
`sorted_counts[0]` / `sorted_counts[1]` raise IndexError in Python when out
of range; the embedding totalizes them with `(0, 0)`, which no five-card
input considered here ever reaches (Python short-circuits the same way). -/
def handScore (cards : List Card) : Int × List Int :=
  let vals := cards.map (fun c => rankValue c.rank)
  let sc := sortedCounts vals
  let flush := maxSuitCount cards ≥ 5
  let ranks := sortedRanksDesc vals
  let straight := straightWindow ranks || ranks.take 5 = [14, 5, 4, 3, 2]
  let sc0 := sc.getD 0 (0, 0)
  let sc1 := sc.getD 1 (0, 0)
  if flush ∧ straight then (9, ranks.take 5)
  else if sc0.2 = 4 then (8, [sc0.1] ++ ranks.take 1)
  else if sc0.2 = 3 ∧ sc1.2 = 2 then (7, [sc0.1, sc1.1])
  else if flush then (6, ranks.take 5)
  else if straight then (5, ranks.take 5)
  else if sc0.2 = 3 then (4, [sc0.1] ++ ranks.take 2)
  else if sc0.2 = 2 ∧ sc1.2 = 2 then (3, [sc0.1, sc1.1] ++ ranks.take 1)
  else if sc0.2 = 2 then (2, [sc0.1] ++ ranks.take 3)
  else (1, ranks.take 5)

/-- `TexasHoldEm.evaluate_hand(player)`.  A `None` hand would raise
TypeError in Python; no evaluated input has one. -/
def evaluate_hand (g : GameState) (p : PPlayer) : Int × List Int :=
  handScore (p.hand.getD [] ++ g.community_cards)

/-- Python `>` on two lists of ints (lexicographic, longer prefix wins). -/
def pyListGt : List Int → List Int → Bool
  | [], [] => false
  | [], _ :: _ => false
  | _ :: _, [] => true
  | x :: xs, y :: ys =>
    if x > y then true else if x < y then false else pyListGt xs ys

/-- `TexasHoldEm.determine_winner(self)` from game.py: ranks the ACTIVE
players of the game (it accepts no other argument) and returns the list of
tied best hands, comparing scores and then kicker lists with Python list
comparison. -/
def determine_winner (g : GameState) : List PPlayer :=
  let step := fun (acc : List PPlayer × Int × List Int) (p : PPlayer) =>
    let (winners, best_score, best_kickers) := acc
    let (score, kickers) := evaluate_hand g p
    if score > best_score then ([p], score, kickers)
    else if score = best_score then
      if pyListGt kickers best_kickers then ([p], score, kickers)
      else if kickers = best_kickers then (winners ++ [p], score, best_kickers)
      else acc
    else acc
  ((g.players.filter (·.active)).foldl step ([], -1, [])).1

/-! ## Betting engine (`TexasHoldEm` methods) -/

/-- `Deck.draw(num)`: pops `num` cards off the end of the list, or returns
`None` (here `none`) leaving the deck untouched when too few remain.
Returns the drawn cards (in pop order) and the remaining deck. -/
def draw (num : Nat) (deck : List Card) : Option (List Card × List Card) :=
  if num ≤ deck.length then
    some ((deck.drop (deck.length - num)).reverse, deck.take (deck.length - num))
  else none

/-- `TexasHoldEm.post_blinds()` with its default blinds 10 and 20 (the only
values it is ever called with).  Deductions are unconditional: there is no
stack check.  With no players, Python would raise ZeroDivisionError on the
index computation; the embedding leaves such a state unchanged apart from
the pot, and it is never reached under the hypotheses used below. -/
def post_blinds (g : GameState) : GameState :=
  let n := g.players.length
  let sbi := (g.dealer_index + 1) % n
  let bbi := (g.dealer_index + 2) % n
  let ps1 := modifyAt sbi
    (fun p => { p with chips := p.chips - 10, current_bet := 10,
                       total_contribution := 10 }) g.players
  let ps2 := modifyAt bbi
    (fun p => { p with chips := p.chips - 20, current_bet := 20,
                       total_contribution := 20 }) ps1
  { g with players := ps2, pot := g.pot + 30 }

/-- The dealing loop of `start_game`, player by player in seat order: each
draws two cards from the shared deck; a failed draw stores `None`. -/
def dealStep (dk : List Card) : List PPlayer → List PPlayer × List Card
  | [] => ([], dk)
  | p :: ps =>
    match draw 2 dk with
    | some (cs, rest) =>
      let r := dealStep rest ps
      ({ p with hand := some cs } :: r.1, r.2)
    | none =>
      let r := dealStep dk ps
      ({ p with hand := none } :: r.1, r.2)

/-- The dealing loop of `start_game` applied to a game. -/
def dealHands (g : GameState) : GameState :=
  let r := dealStep g.deck g.players
  { g with players := r.1, deck := r.2 }

/-- `TexasHoldEm.start_game()`: deal two hole cards to every player, post
the blinds, set the betting target to the big blind bet, and set the first
turn (dealer for heads-up, dealer+3 otherwise). -/
def start_game (g : GameState) : GameState :=
  let g1 := post_blinds (dealHands g)
  let n := g1.players.length
  let g2 := { g1 with
    current_bet := (getP g1.players ((g1.dealer_index + 2) % n)).current_bet }
  if n = 2 then { g2 with current_turn_index := g2.dealer_index }
  else { g2 with current_turn_index := (g2.dealer_index + 3) % n }

/-- The scan `for i in range(start, start+fuel): if players[(base+i) % n]
is active, return that index` used by both turn-advancing methods. -/
def findActiveFrom (ps : List PPlayer) (base : Nat) : Nat → Nat → Option Nat
  | _, 0 => none
  | i, fuel + 1 =>
    let idx := (base + i) % ps.length
    if (getP ps idx).active then some idx
    else findActiveFrom ps base (i + 1) fuel

/-- `TexasHoldEm.next_turn()`: advance to the next active player (indices
`turn+1 .. turn+n`); if none is active the turn is left unchanged. -/
def next_turn (g : GameState) : GameState :=
  match findActiveFrom g.players g.current_turn_index 1 g.players.length with
  | some idx => { g with current_turn_index := idx }
  | none => g

/-- `TexasHoldEm.set_next_turn_for_new_betting_round()`: the first active
player among `dealer+1 .. dealer+n`; unchanged if none is active. -/
def set_next_turn (g : GameState) : GameState :=
  match findActiveFrom g.players (g.dealer_index + 1) 0 g.players.length with
  | some idx => { g with current_turn_index := idx }
  | none => g

/-- `TexasHoldEm.is_betting_round_complete()`: all active players share one
`current_bet` (vacuously true with no active players). -/
def is_betting_round_complete (g : GameState) : Bool :=
  match g.players.filter (·.active) with
  | [] => true
  | p :: rest => rest.all (fun q => q.current_bet = p.current_bet)

/-- Number of active players. -/
def countActive (g : GameState) : Nat :=
  (g.players.filter (·.active)).length

/-- `deal_community_cards(num)`.  When the deck is short, `draw` returns
`None` and `community_cards.extend(None)` raises TypeError with the
caller's phase assignment already performed. -/
def dealCommunity (num : Nat) (g : GameState) : GameState × Option String :=
  match draw num g.deck with
  | some (cs, rest) =>
    ({ g with community_cards := g.community_cards ++ cs, deck := rest }, none)
  | none => (g, some ("TypeError: NoneType object is not iterable"))

/-- `TexasHoldEm.advance_phase()`: step the phase forward and deal 3/1/1
community cards entering flop/turn/river; no deal entering showdown and no
change at showdown.  A phase string outside the list raises ValueError. -/
def advance_phase (g : GameState) : GameState × Option String :=
  if g.phase = "pre-flop" then dealCommunity 3 { g with phase := "flop" }
  else if g.phase = "flop" then dealCommunity 1 { g with phase := "turn" }
  else if g.phase = "turn" then dealCommunity 1 { g with phase := "river" }
  else if g.phase = "river" then ({ g with phase := "showdown" }, none)
  else if g.phase = "showdown" then (g, none)
  else (g, some ("ValueError: phase not in list"))

/-! ## Side-pot computation (`TexasHoldEm.split_pots`)

The layer loop of `split_pots` works on each player's `(active,
total_contribution)` pair: repeatedly take the least positive remaining
contribution `m`, emit a layer of amount `m * (number of positive
contributors)` whose eligible players are the active positive contributors,
and subtract `m` from every positive contribution.  Each round zeroes at
least one positive contribution, so `players.length` rounds of fuel cover
every round the Python `while True` loop performs. -/

/-- Entries with positive remaining contribution (`amt > 0`). -/
def posContribs (entries : List (Bool × Int)) : List (Bool × Int) :=
  entries.filter (fun e => 0 < e.2)

/-- `min(amt for _, amt in active_contribs)` (0 on an empty list, unused). -/
def minContrib : List (Bool × Int) → Int
  | [] => 0
  | e :: rest => rest.foldl (fun m x => min m x.2) e.2

/-- Subtract `m` from every positive contribution. -/
def layerStep (entries : List (Bool × Int)) (m : Int) : List (Bool × Int) :=
  entries.map (fun e => if 0 < e.2 then (e.1, e.2 - m) else e)

/-- The pot layers as `(amount, number of eligible players)` pairs, in
formation order. -/
def splitLayersAux : Nat → List (Bool × Int) → List (Int × Nat)
  | 0, _ => []
  | fuel + 1, entries =>
    let act := posContribs entries
    if act.isEmpty then []
    else
      (minContrib act * act.length, (act.filter (·.1)).length)
        :: splitLayersAux fuel (layerStep entries (minContrib act))

/-- The `(active, total_contribution)` pairs of a game in seat order. -/
def contribEntries (g : GameState) : List (Bool × Int) :=
  g.players.map (fun p => (p.active, p.total_contribution))

/-- All pot layers of the game. -/
def splitLayers (g : GameState) : List (Int × Nat) :=
  splitLayersAux g.players.length (contribEntries g)

/-- `TexasHoldEm.split_pots()`.  The distribution loop of the source calls
`self.determine_winner(pot["eligible"])` for each layer with a non-empty
eligible set, but `determine_winner` accepts no positional argument, so
that call raises TypeError at the first such layer, before any chips are
awarded and before `self.pot = 0`; layers with no eligible players are
only logged.  Hence: if any layer has an eligible player the call raises
with the state unchanged, otherwise the loop finishes having awarded
nothing and clears the pot. -/
def split_pots (g : GameState) : Except String GameState :=
  if (splitLayers g).any (fun l => l.2 ≠ 0) then
    Except.error
      ("TypeError: determine_winner() takes 1 positional argument but 2 were given")
  else Except.ok { g with pot := 0 }

/-! ## `TexasHoldEm.take_action` -/

/-- The mutation of an accepted fold: the current player goes inactive. -/
def foldApply (g : GameState) : GameState :=
  let ps := modifyAt g.current_turn_index
    (fun p => { p with active := false }) g.players
  { g with players := ps }

/-- The mutation of an accepted bet: move `amount` from the stack into
`current_bet`, `total_contribution` and the pot, raising the betting target
when the new personal bet exceeds it. -/
def betApply (g : GameState) (amount : Int) : GameState :=
  let cp := getP g.players g.current_turn_index
  let ps := modifyAt g.current_turn_index
    (fun p => { p with chips := p.chips - amount,
                       current_bet := p.current_bet + amount,
                       total_contribution := p.total_contribution + amount })
    g.players
  let g1 := { g with players := ps, pot := g.pot + amount }
  if cp.current_bet + amount > g.current_bet then
    { g1 with current_bet := cp.current_bet + amount }
  else g1

/-- Lines 115-143 of game.py: everything `take_action` does after an
accepted fold or bet.  If one active player remains, the pots are split
(which in fact raises, see `split_pots`) and the phase becomes showdown.
Otherwise the turn advances; if the betting round is complete the phase
advances, and either the bets are reset for the next round or (at
showdown) the pots are split. -/
def afterAction (g1 : GameState) (msg : String) : GameState × PyResult :=
  if countActive g1 = 1 then
    let w := (g1.players.filter (·.active)).headD dfltPlayer
    match split_pots g1 with
    | Except.error e => (g1, PyResult.exn e)
    | Except.ok g2 =>
      ({ g2 with phase := "showdown" },
       PyResult.ret true
         (msg ++ " Only " ++ w.name ++ " remains. Remaining pot(s) have been split."))
  else
    let g2 := next_turn g1
    if is_betting_round_complete g2 then
      match advance_phase g2 with
      | (g3, some e) => (g3, PyResult.exn e)
      | (g3, none) =>
        let msg2 := msg ++ " Betting round complete." ++ " Advancing phase to "
          ++ g3.phase ++ "."
        if g3.phase ≠ "showdown" then
          let g4 := { g3 with
            players := g3.players.map (fun p => { p with current_bet := 0 }),
            current_bet := 0 }
          (set_next_turn g4, PyResult.ret true msg2)
        else
          match split_pots g3 with
          | Except.error e => (g3, PyResult.exn e)
          | Except.ok g4 =>
            (g4, PyResult.ret true
              (msg2 ++ " Showdown: Pots have been split among winners."))
    else
      (g2, PyResult.ret true
        (msg ++ " Next turn: " ++ (getP g2.players g2.current_turn_index).name ++ "."))

/-- `TexasHoldEm.take_action(player_name, action, amount)`.  Messages follow
the source up to punctuation (the out-of-turn message is paraphrased to
avoid quoting contractions).  Indexing `players[current_turn_index]` out of
range raises IndexError. -/
def take_action (g : GameState) (player_name action : String) (amount : Int) :
    GameState × PyResult :=
  if g.players.length ≤ g.current_turn_index then
    (g, PyResult.exn ("IndexError: list index out of range"))
  else
    let cp := getP g.players g.current_turn_index
    if cp.name ≠ player_name then
      (g, PyResult.ret false ("It is not your turn."))
    else if action = "fold" then
      afterAction (foldApply g) (player_name ++ " folds.")
    else if action = "bet" then
      let required := g.current_bet - cp.current_bet
      if amount < required ∧ amount ≠ cp.chips then
        (g, PyResult.ret false
          ("Minimum required bet is " ++ toString required
            ++ " chips to call, unless going all-in."))
      else if amount > cp.chips then
        (g, PyResult.ret false ("Insufficient chips for that bet."))
      else
        afterAction (betApply g amount)
          (player_name ++ " bets " ++ toString amount ++ " chips.")
    else (g, PyResult.ret false ("Invalid action."))

/-- Total chips in sight: every stack plus the pot. -/
def chipSum (g : GameState) : Int :=
  (g.players.map (·.chips)).sum + g.pot

/-! ## Table orchestrator (`PokerServer` in server.py)

Python dictionaries keyed by table id become association lists; the
websocket handles stored under `connections` are reduced to the connected
player names (broadcasts and sends have no effect on server state except
pruning, which no claim touches).  `start_tasks` holds the table ids whose
scheduled `delayed_game_start` task exists and has not been cancelled:
`asyncio.Task.cancel()` on a task still sleeping prevents its body from
resuming, so the post-sleep body (`delayed_body`) of a start task can run
only while its table id is still in `start_tasks`. -/

/-- `MIN_PLAYERS` from server.py. -/
def MIN_PLAYERS : Nat := 2

/-- Association-list lookup (`dict.get`). -/
def lookupA (l : List (String × α)) (k : String) : Option α :=
  (l.find? (fun e => e.1 = k)).map (·.2)

/-- Association-list store (`d[k] = v`). -/
def setA (k : String) (v : α) (l : List (String × α)) : List (String × α) :=
  if (l.find? (fun e => e.1 = k)).isSome then
    l.map (fun e => if e.1 = k then (k, v) else e)
  else l ++ [(k, v)]

/-- Association-list delete (`del d[k]` / `d.pop(k, None)`). -/
def removeA (k : String) (l : List (String × α)) : List (String × α) :=
  l.filter (fun e => e.1 ≠ k)

/-- `list(dict.fromkeys(xs))`: deduplicate keeping first occurrences. -/
def dedupFirstAux [DecidableEq α] (seen : List α) : List α → List α
  | [] => []
  | x :: xs =>
    if x ∈ seen then dedupFirstAux seen xs
    else x :: dedupFirstAux (x :: seen) xs

/-- `list(dict.fromkeys(xs))`. -/
def dedupFirst [DecidableEq α] (l : List α) : List α := dedupFirstAux [] l

/-- The server state: connections, table seating, active games, and the
still-scheduled (uncancelled, not yet finished) delayed-start tasks. -/
structure SState where
  connections : List (String × List String)
  tables : List (String × (List String × List String))
  active_games : List (String × GameState)
  start_tasks : List String
deriving DecidableEq, Repr

/-- `PokerServer.create_game(table_id, players)`: install a fresh
`TexasHoldEm` over the given names (with the given shuffled deck). -/
def create_game (st : SState) (tid : String) (names : List String)
    (deck : List Card) : SState :=
  { st with active_games := setA tid (mkGame names deck) st.active_games }

/-- The body of `PokerServer.delayed_game_start` after its sleep: if the
table is gone it returns early (leaving its task entry behind, as the
source does); otherwise it creates and starts a game when the table still
has `MIN_PLAYERS` seated and no game, and in all such cases removes its
own finished task entry. -/
def delayed_body (st : SState) (tid : String) (deck : List Card) : SState :=
  match lookupA st.tables tid with
  | none => st
  | some t =>
    let st1 :=
      if MIN_PLAYERS ≤ t.1.length ∧ (lookupA st.active_games tid).isNone then
        let st' := create_game st tid t.1 deck
        let ag := (st'.active_games).map
          (fun e => if e.1 = tid then (tid, start_game e.2) else e)
        { st' with active_games := ag }
      else st
    { st1 with start_tasks := st1.start_tasks.erase tid }

/-- `PokerServer.disconnect(table_id, player_name)`: drop the connection,
unseat the player, cancel a pending start when seating fell below
`MIN_PLAYERS`, and kill an active game likewise. -/
def disconnect (st : SState) (tid pname : String) : SState :=
  let conns := st.connections.map
    (fun e => if e.1 = tid then (tid, e.2.erase pname) else e)
  let st1 := { st with connections := conns }
  match lookupA st1.tables tid with
  | none => st1
  | some t =>
    let ps := t.1.erase pname
    let ws := t.2.erase pname
    let st2 := { st1 with tables := setA tid (ps, ws) st1.tables }
    let st3 :=
      if tid ∈ st2.start_tasks ∧ ps.length < MIN_PLAYERS then
        { st2 with start_tasks := st2.start_tasks.erase tid }
      else st2
    if (lookupA st3.active_games tid).isSome ∧ ps.length < MIN_PLAYERS then
      { st3 with active_games := removeA tid st3.active_games }
    else st3

/-- `PokerServer.end_game_and_start_new_one(table_id)`: discard the active
game, merge the waiting players into the seating (first occurrences kept),
and start a new game immediately when enough players are seated.  The new
game is built by `create_game` from the player NAMES alone. -/
def end_game_and_start_new_one (st : SState) (tid : String) (deck : List Card) :
    SState :=
  match lookupA st.active_games tid with
  | none => st
  | some _ =>
    let st1 := { st with active_games := removeA tid st.active_games }
    match lookupA st1.tables tid with
    | none => st1
    | some t =>
      let merged := dedupFirst (t.1 ++ t.2)
      let st2 := { st1 with tables := setA tid (merged, []) st1.tables }
      if MIN_PLAYERS ≤ merged.length then
        let st3 := create_game st2 tid merged deck
        let ag := (st3.active_games).map
          (fun e => if e.1 = tid then (tid, start_game e.2) else e)
        { st3 with active_games := ag }
      else st2

/-! ## Trace relation and invariant machinery for chip conservation -/

/-- One ACCEPTED action: some player takes some action and `take_action`
returns `(True, message)`. -/
def AStep (g g' : GameState) : Prop :=
  ∃ nm act amt msg, take_action g nm act amt = (g', PyResult.ret true msg)

/-- Forward distance from seat `a` to seat `b` around a table of `n` seats
(for `a, b < n` this is `(b + n - a) % n`, written without `%`). -/
def dist (n a b : Nat) : Nat := if a ≤ b then b - a else b + n - a

/-- Everything about a player except the hand (dealing touches only the
hand, so this projection passes through `dealStep` unchanged). -/
def proj (p : PPlayer) : String × Int × Bool × Int × Int :=
  (p.name, p.chips, p.active, p.current_bet, p.total_contribution)

/-- The inductive invariant of accepted-action traces of a started game.
`sbi = 1`, `bbi = 2 % n` and `f = 3 % n` (first pre-flop actor for three or
more seats) use that the dealer index is 0 and never changes. -/
structure Inv (g : GameState) : Prop where
  dIdx : g.dealer_index = 0
  twoLe : 2 ≤ g.players.length
  turnLt : g.current_turn_index < g.players.length
  phOk : g.phase = "pre-flop" ∨ g.phase = "flop" ∨ g.phase = "turn" ∨
    g.phase = "river"
  potEq : g.pot = (g.players.map (·.total_contribution)).sum
  sbC : 10 ≤ (getP g.players 1).total_contribution
  bbC : 20 ≤ (getP g.players (2 % g.players.length)).total_contribution
  betsNN : ∀ p ∈ g.players, 0 ≤ p.current_bet
  betsLe : ∀ p ∈ g.players, p.current_bet ≤ g.current_bet
  betLeC : ∀ p ∈ g.players, p.current_bet ≤ p.total_contribution
  chipsNN : ∀ p ∈ g.players, 0 ≤ p.chips
  fresh1000 : ∀ p ∈ g.players, p.total_contribution = 0 → p.chips = 1000
  twoActive : 2 ≤ countActive g
  preTarget : g.phase = "pre-flop" → 20 ≤ g.current_bet
  preBB : g.phase = "pre-flop" →
    (getP g.players (2 % g.players.length)).active = true →
    20 ≤ (getP g.players (2 % g.players.length)).current_bet
  zeroOrd : ∀ i, i < g.players.length → (getP g.players i).active = true →
    (getP g.players i).total_contribution = 0 →
    g.phase = "pre-flop" ∧ (getP g.players 1).active = true ∧
    (getP g.players (2 % g.players.length)).active = true ∧
    dist g.players.length (3 % g.players.length) i ≤ g.players.length - 3 ∧
    dist g.players.length (3 % g.players.length) g.current_turn_index ≤
      dist g.players.length (3 % g.players.length) i

/-- The invariant transported to the state reached right after an accepted
fold or bet mutation, before the turn advances: identical to `Inv` except
that the actor (the player at the unchanged `current_turn_index`) is no
longer a zero-contribution active player, making the order bound strict,
and that the active count is supplied separately by the branch taken. -/
structure MidInv (g : GameState) : Prop where
  dIdx : g.dealer_index = 0
  twoLe : 2 ≤ g.players.length
  turnLt : g.current_turn_index < g.players.length
  phOk : g.phase = "pre-flop" ∨ g.phase = "flop" ∨ g.phase = "turn" ∨
    g.phase = "river"
  potEq : g.pot = (g.players.map (·.total_contribution)).sum
  sbC : 10 ≤ (getP g.players 1).total_contribution
  bbC : 20 ≤ (getP g.players (2 % g.players.length)).total_contribution
  betsNN : ∀ p ∈ g.players, 0 ≤ p.current_bet
  betsLe : ∀ p ∈ g.players, p.current_bet ≤ g.current_bet
  betLeC : ∀ p ∈ g.players, p.current_bet ≤ p.total_contribution
  chipsNN : ∀ p ∈ g.players, 0 ≤ p.chips
  fresh1000 : ∀ p ∈ g.players, p.total_contribution = 0 → p.chips = 1000
  preTarget : g.phase = "pre-flop" → 20 ≤ g.current_bet
  preBB : g.phase = "pre-flop" →
    (getP g.players (2 % g.players.length)).active = true →
    20 ≤ (getP g.players (2 % g.players.length)).current_bet
  zeroOrdS : ∀ i, i < g.players.length → (getP g.players i).active = true →
    (getP g.players i).total_contribution = 0 →
    g.phase = "pre-flop" ∧ (getP g.players 1).active = true ∧
    (getP g.players (2 % g.players.length)).active = true ∧
    dist g.players.length (3 % g.players.length) i ≤ g.players.length - 3 ∧
    dist g.players.length (3 % g.players.length) g.current_turn_index <
      dist g.players.length (3 % g.players.length) i

/-! ## Concrete states used to settle individual claims -/

/-- A two-player showdown: both called 20, both still in. -/
def gC1 : GameState :=
  { deck := [], community_cards := [], pot := 40, dealer_index := 0,
    phase := "showdown", current_turn_index := 0, current_bet := 20,
    players :=
      [{ name := "A", chips := 980, hand := some [], active := true,
         current_bet := 20, total_contribution := 20 },
       { name := "B", chips := 980, hand := some [], active := true,
         current_bet := 20, total_contribution := 20 }] }

/-- A finished two-player game in which A holds 950 chips and B 1050. -/
def gOldC3 : GameState :=
  { deck := [], community_cards := [], pot := 0, dealer_index := 0,
    phase := "showdown", current_turn_index := 0, current_bet := 0,
    players :=
      [{ name := "A", chips := 950, hand := some [], active := true,
         current_bet := 0, total_contribution := 0 },
       { name := "B", chips := 1050, hand := some [], active := false,
         current_bet := 0, total_contribution := 0 }] }

/-- Server state holding the table of `gOldC3` at showdown. -/
def stC3 : SState :=
  { connections := [("t1", ["A", "B"])],
    tables := [("t1", (["A", "B"], []))],
    active_games := [("t1", gOldC3)],
    start_tasks := [] }

/-- The wheel input of C4: A of Spades, 2 of Diamonds, 3 of Clubs,
4 of Hearts, 5 of Spades. -/
def wheelC4 : List Card :=
  [{ rank := "A", suit := "Spades" }, { rank := "2", suit := "Diamonds" },
   { rank := "3", suit := "Clubs" }, { rank := "4", suit := "Hearts" },
   { rank := "5", suit := "Spades" }]

/-- A six-high straight (2 through 6, mixed suits), the weakest straight
above the wheel. -/
def sixHighC4 : List Card :=
  [{ rank := "2", suit := "Diamonds" }, { rank := "3", suit := "Clubs" },
   { rank := "4", suit := "Hearts" }, { rank := "5", suit := "Spades" },
   { rank := "6", suit := "Spades" }]

/-- The quad-aces input of C8: all four aces plus the 2 of Clubs. -/
def quadAcesC8 : List Card :=
  [{ rank := "A", suit := "Clubs" }, { rank := "A", suit := "Diamonds" },
   { rank := "A", suit := "Hearts" }, { rank := "A", suit := "Spades" },
   { rank := "2", suit := "Clubs" }]

/-- A three-player game already at showdown (all called 20, bets reset). -/
def gC5 : GameState :=
  { deck := [], community_cards := [], pot := 60, dealer_index := 0,
    phase := "showdown", current_turn_index := 0, current_bet := 0,
    players :=
      [{ name := "A", chips := 100, hand := some [], active := true,
         current_bet := 0, total_contribution := 20 },
       { name := "B", chips := 100, hand := some [], active := true,
         current_bet := 0, total_contribution := 20 },
       { name := "C", chips := 100, hand := some [], active := true,
         current_bet := 0, total_contribution := 20 }] }

/-- A freshly started three-player game (used as a generic witness state). -/
def gW : GameState := start_game (mkGame ["A", "B", "C"] [])

/-- A two-player table about to start a hand in which the small blind
(seat 1, dealer at seat 0) holds only 5 chips. -/
def gC10 : GameState :=
  { deck := [], community_cards := [], pot := 0, dealer_index := 0,
    phase := "pre-flop", current_turn_index := 0, current_bet := 0,
    players :=
      [{ name := "A", chips := 1000, hand := some [], active := true,
         current_bet := 0, total_contribution := 0 },
       { name := "B", chips := 5, hand := some [], active := true,
         current_bet := 0, total_contribution := 0 }] }

/-- Server state for C9: table "t" seated at exactly `MIN_PLAYERS` with a
pending deferred start and no active game. -/
def stC9 : SState :=
  { connections := [("t", ["A", "B"])],
    tables := [("t", (["A", "B"], []))],
    active_games := [],
    start_tasks := ["t"] }

/-- The state after the first accepted action on `gW` (the first actor
folds); used to witness chip conservation on a non-trivial trace. -/
def gWA : GameState := (take_action gW "A" "fold" 0).1

/-! # Theorems -/

/-! ## Basic lemmas about the list helpers -/

theorem modifyAt_length (i : Nat) (f : α → α) (l : List α) :
    (modifyAt i f l).length = l.length := by
  induction l generalizing i with
  | nil => simp [modifyAt]
  | cons x xs ih =>
    cases i with
    | zero => rfl
    | succ n => simpa [modifyAt] using ih n

theorem getD_modifyAt_self (f : α → α) (d : α) (l : List α) (i : Nat)
    (h : i < l.length) :
    (modifyAt i f l).getD i d = f (l.getD i d) := by
  induction l generalizing i with
  | nil => simp at h
  | cons x xs ih =>
    cases i with
    | zero => rfl
    | succ n => simpa [modifyAt] using ih n (by simpa using h)

theorem getD_modifyAt_ne (f : α → α) (d : α) (l : List α) (i j : Nat)
    (h : i ≠ j) :
    (modifyAt i f l).getD j d = l.getD j d := by
  induction l generalizing i j with
  | nil => cases i <;> rfl
  | cons x xs ih =>
    cases i with
    | zero =>
      cases j with
      | zero => exact absurd rfl h
      | succ m => rfl
    | succ n =>
      cases j with
      | zero => rfl
      | succ m => simpa [modifyAt] using ih n m (by omega)

theorem sum_map_modifyAt (gf : α → Int) (f : α → α) (d : α) (l : List α)
    (i : Nat) (h : i < l.length) :
    ((modifyAt i f l).map gf).sum
      = (l.map gf).sum + (gf (f (l.getD i d)) - gf (l.getD i d)) := by
  induction l generalizing i with
  | nil => simp at h
  | cons x xs ih =>
    cases i with
    | zero => simp [modifyAt]; ring
    | succ n =>
      have := ih n (by simpa using h)
      simp only [modifyAt, List.map_cons, List.sum_cons, List.getD_cons_succ]
      rw [this]; ring

theorem forall_mem_modifyAt {P : α → Prop} (f : α → α) (l : List α) (i : Nat)
    (hall : ∀ p ∈ l, P p) (hf : ∀ p ∈ l, P (f p)) :
    ∀ p ∈ modifyAt i f l, P p := by
  induction l generalizing i with
  | nil => intro p hp; simp [modifyAt] at hp
  | cons x xs ih =>
    cases i with
    | zero =>
      intro p hp
      rcases List.mem_cons.mp hp with h | h
      · exact h ▸ hf x (by simp)
      · exact hall p (List.mem_cons_of_mem _ h)
    | succ n =>
      intro p hp
      rcases List.mem_cons.mp hp with h | h
      · exact h ▸ hall x (by simp)
      · exact ih n (fun q hq => hall q (List.mem_cons_of_mem _ hq))
          (fun q hq => hf q (List.mem_cons_of_mem _ hq)) p h

theorem getD_mem (l : List α) (i : Nat) (d : α) (h : i < l.length) :
    l.getD i d ∈ l := by
  rw [List.getD_eq_getElem l d h]
  exact List.getElem_mem h

theorem filter_length_map (f : α → α) (q : α → Bool) (l : List α)
    (h : ∀ x, q (f x) = q x) :
    ((l.map f).filter q).length = (l.filter q).length := by
  induction l with
  | nil => rfl
  | cons x xs ih =>
    by_cases hx : q x = true
    · simp [List.filter_cons, hx, h x, ih]
    · simp only [Bool.not_eq_true] at hx
      simp [List.filter_cons, hx, h x, ih]

theorem filter_length_modifyAt_pred (f : α → α) (q : α → Bool) (l : List α)
    (i : Nat) :
    (l.filter q).length - 1 ≤ ((modifyAt i f l).filter q).length ∧
    ((modifyAt i f l).filter q).length ≤ (l.filter q).length + 1 := by
  induction l generalizing i with
  | nil => simp [modifyAt]
  | cons x xs ih =>
    cases i with
    | zero =>
      by_cases hx : q x = true <;> by_cases hfx : q (f x) = true <;>
        simp [modifyAt, List.filter_cons, hx, hfx] <;> omega
    | succ n =>
      have := ih n
      by_cases hx : q x = true <;>
        simp [modifyAt, List.filter_cons, hx] <;> omega

/-! ## Claims settled by direct evaluation -/

/-- C1: at showdown settlement the code cannot award any pot layer: for the
two-player showdown `gC1` (one layer of 40 chips with both players
eligible), `split_pots` raises TypeError, because it invokes
`determine_winner(pot["eligible"])` while `determine_winner` accepts no
positional argument; no stack is changed and the layer is never ranked or
paid, contradicting the claimed ranking and `amount // winners` award. -/
theorem thm_C1_split_pots_raises :
    splitLayers gC1 = [(40, 2)] ∧
    split_pots gC1 = Except.error
      ("TypeError: determine_winner() takes 1 positional argument but 2 were given") := by
  constructor
  · decide
  · rfl

/-- C3: starting the next hand does NOT preserve chip stacks.  In `stC3`
player A finished the previous hand with 950 chips and B with 1050, yet the
game installed by `end_game_and_start_new_one` rebuilds every player from
the name alone (`Player.__init__` default 1000), then posts blinds: A (big
blind) restarts at 980 and B (small blind) at 990, with hand, current_bet
and total_contribution freshly reset. -/
theorem thm_C3_new_hand_resets_stacks :
    ((lookupA stC3.active_games "t1").map
      (fun g => g.players.map (fun p => (p.name, p.chips)))
        = some [("A", 950), ("B", 1050)]) ∧
    ((lookupA (end_game_and_start_new_one stC3 "t1" []).active_games "t1").map
      (fun g => g.players.map (fun p => (p.name, p.chips)))
        = some [("A", 980), ("B", 990)]) := by
  constructor
  · decide
  · decide

/-- C4: the wheel A-2-3-4-5 is detected as a straight (category 5), but its
kicker list keeps the ace at value 14: the result is `(5, [14, 5, 4, 3, 2])`
rather than the claimed `[5, 4, 3, 2, 1]`-equivalent, and therefore the
wheel compares ABOVE the six-high straight `(5, [6, 5, 4, 3, 2])` under the
code's lexicographic kicker comparison, contradicting "compares below any
higher straight". -/
theorem thm_C4_wheel_keeps_high_ace :
    handScore wheelC4 = (5, [14, 5, 4, 3, 2]) ∧
    handScore sixHighC4 = (5, [6, 5, 4, 3, 2]) ∧
    pyListGt [14, 5, 4, 3, 2] [6, 5, 4, 3, 2] = true := by
  refine ⟨?_, ?_, ?_⟩
  · decide
  · decide
  · decide

/-- C8: four aces with a deuce evaluate to `(8, [14, 14])`: the second
kicker entry is `ranks[:1]`, the highest DISTINCT rank overall, which is the
quad rank itself, not the highest remaining non-quad rank 2 claimed. -/
theorem thm_C8_quad_kicker_is_quad_rank :
    handScore quadAcesC8 = (8, [14, 14]) ∧
    (handScore quadAcesC8).2 ≠ [14, 2] := by
  constructor
  · decide
  · decide

/-- C5 counterexample: `take_action` never consults the phase, so showdown
is not terminal: in `gC5` (phase showdown, three active players) the
in-turn bet of 10 by A is ACCEPTED, moves 10 chips into the pot and
advances the turn. -/
theorem cex_C5_showdown_accepts_action :
    gC5.phase = "showdown" ∧
    (take_action gC5 "A" "bet" 10).2
      = PyResult.ret true ("A bets 10 chips. Next turn: B.") ∧
    (take_action gC5 "A" "bet" 10).1.pot = 70 ∧
    (take_action gC5 "A" "bet" 10).1.current_turn_index = 1 := by
  refine ⟨rfl, ?_, ?_, ?_⟩
  · decide
  · decide
  · decide

/-! ## Association-list lemmas (server state) -/

theorem lookupA_map_set (l : List (String × α)) (k : String) (v : α)
    (h : (l.find? (fun e => e.1 = k)).isSome) :
    lookupA (l.map (fun e => if e.1 = k then (k, v) else e)) k = some v := by
  induction l with
  | nil => simp [List.find?] at h
  | cons e l ih =>
    by_cases he : e.1 = k
    · simp [lookupA, he, List.find?_cons_of_pos]
    · have h' : (l.find? (fun e => e.1 = k)).isSome := by
        rwa [List.find?_cons_of_neg _ (by simpa using he)] at h
      have := ih h'
      simp only [lookupA] at this ⊢
      rw [List.map_cons, if_neg he,
        List.find?_cons_of_neg _ (by simpa using he)]
      exact this

theorem lookupA_append_single (l : List (String × α)) (k : String) (v : α)
    (h : l.find? (fun e => e.1 = k) = none) :
    lookupA (l ++ [(k, v)]) k = some v := by
  induction l with
  | nil => simp [lookupA, List.find?_cons_of_pos]
  | cons e l ih =>
    have he : ¬(e.1 = k) := by
      intro hk
      rw [List.find?_cons_of_pos _ (by simpa using hk)] at h
      exact Option.noConfusion h
    have h' : l.find? (fun e => e.1 = k) = none := by
      rwa [List.find?_cons_of_neg _ (by simpa using he)] at h
    have := ih h'
    simp only [lookupA] at this ⊢
    rw [List.cons_append, List.find?_cons_of_neg _ (by simpa using he)]
    exact this

theorem lookupA_setA_self (l : List (String × α)) (k : String) (v : α) :
    lookupA (setA k v l) k = some v := by
  unfold setA
  by_cases h : (l.find? (fun e => e.1 = k)).isSome
  · rw [if_pos h]
    exact lookupA_map_set l k v h
  · rw [if_neg h]
    exact lookupA_append_single l k v (by
      rcases hx : l.find? (fun e => e.1 = k) with _ | e
      · exact hx
      · exact absurd (by rw [hx]; rfl) h)

/-- C9: a disconnect that drops a table with a pending deferred start below
`MIN_PLAYERS` cancels the pending start task and leaves no game; moreover,
even if the finished body of that start task were still to run, it would
refuse to create a game (its re-check finds fewer than `MIN_PLAYERS`
seated), so no betting engine is ever created from the cancelled start. -/
theorem thm_C9_disconnect_cancels_start (st : SState) (tid p : String)
    (ps ws : List String)
    (ht : lookupA st.tables tid = some (ps, ws))
    (hmin : ps.length = MIN_PLAYERS)
    (hp : p ∈ ps)
    (hpend : tid ∈ st.start_tasks)
    (hnodup : st.start_tasks.Nodup)
    (hgame : lookupA st.active_games tid = none) :
    tid ∉ (disconnect st tid p).start_tasks ∧
    lookupA (disconnect st tid p).active_games tid = none ∧
    ∀ deck,
      lookupA (delayed_body (disconnect st tid p) tid deck).active_games tid
        = none := by
  have hlen : (ps.erase p).length < MIN_PLAYERS := by
    rw [List.length_erase_of_mem hp, hmin]
    simp [MIN_PLAYERS]
  have hd : disconnect st tid p =
      { st with
        connections := st.connections.map
          (fun e => if e.1 = tid then (tid, e.2.erase p) else e),
        tables := setA tid (ps.erase p, ws.erase p) st.tables,
        start_tasks := st.start_tasks.erase tid } := by
    unfold disconnect
    dsimp only
    rw [ht]
    dsimp only
    rw [if_pos (⟨hpend, hlen⟩ : tid ∈ st.start_tasks ∧
      (ps.erase p).length < MIN_PLAYERS)]
    rw [if_neg]
    intro hcon
    rw [hgame] at hcon
    exact Bool.noConfusion hcon.1
  refine ⟨?_, ?_, ?_⟩
  · rw [hd]
    exact hnodup.not_mem_erase
  · rw [hd]
    exact hgame
  · intro deck
    rw [hd]
    unfold delayed_body
    rw [lookupA_setA_self]
    simp only
    rw [if_neg]
    · exact hgame
    · intro hcon
      exact absurd hmin (by have := hcon.1; omega)

/-- C9 witness: the cancellation theorem applied to the concrete table
`stC9` seated at exactly two players with a pending start. -/
theorem thm_C9_witness :
    "t" ∉ (disconnect stC9 "t" "A").start_tasks ∧
    lookupA (disconnect stC9 "t" "A").active_games "t" = none ∧
    lookupA (delayed_body (disconnect stC9 "t" "A") "t" []).active_games "t"
      = none := by
  have h := thm_C9_disconnect_cancels_start stC9 "t" "A" ["A", "B"] []
    (by decide) (by decide) (by decide) (by decide) (by decide) (by decide)
  exact ⟨h.1, h.2.1, h.2.2 []⟩

/-! ## Dealing and blind-posting lemmas -/

theorem dealStep_proj (dk : List Card) (ps : List PPlayer) :
    ((dealStep dk ps).1).map proj = ps.map proj := by
  induction ps generalizing dk with
  | nil => rfl
  | cons p ps ih =>
    rcases hd : draw 2 dk with _ | ⟨cs, rest⟩
    · simp [dealStep, hd, proj, ih]
    · simp [dealStep, hd, proj, ih]

theorem dealStep_players_length (dk : List Card) (ps : List PPlayer) :
    ((dealStep dk ps).1).length = ps.length := by
  have h := congrArg List.length (dealStep_proj dk ps)
  simpa using h

theorem dealStep_getP (dk : List Card) (ps : List PPlayer) (i : Nat)
    (_ : i < ps.length) :
    proj (getP (dealStep dk ps).1 i) = proj (getP ps i) := by
  have hm := dealStep_proj dk ps
  have h2 := congrArg (fun l => l.getD i (proj dfltPlayer)) hm
  simpa [getP, List.getD_map] using h2

theorem dealHands_players_length (g : GameState) :
    (dealHands g).players.length = g.players.length :=
  dealStep_players_length g.deck g.players

theorem dealHands_getP (g : GameState) (i : Nat) (h : i < g.players.length) :
    proj (getP (dealHands g).players i) = proj (getP g.players i) :=
  dealStep_getP g.deck g.players i h

theorem dealHands_pot (g : GameState) : (dealHands g).pot = g.pot := rfl

theorem sb_ne_bb (d n : Nat) (h : 2 ≤ n) : (d + 1) % n ≠ (d + 2) % n := by
  have h1 : (d + 2) % n = ((d + 1) % n + 1) % n := by
    conv_lhs => rw [show d + 2 = (d + 1) + 1 from rfl]
    rw [Nat.add_mod (d + 1) 1 n, Nat.mod_eq_of_lt (show 1 < n by omega)]
  have ha : (d + 1) % n < n := Nat.mod_lt _ (by omega)
  intro he
  rw [h1] at he
  by_cases hlt : (d + 1) % n + 1 < n
  · rw [Nat.mod_eq_of_lt hlt] at he
    omega
  · have hn : (d + 1) % n + 1 = n := by omega
    rw [hn, Nat.mod_self] at he
    omega

theorem start_game_players (g : GameState) :
    (start_game g).players = (post_blinds (dealHands g)).players := by
  unfold start_game
  dsimp only
  split <;> rfl

theorem start_game_pot (g : GameState) :
    (start_game g).pot = (post_blinds (dealHands g)).pot := by
  unfold start_game
  dsimp only
  split <;> rfl

theorem post_blinds_pot (g : GameState) :
    (post_blinds g).pot = g.pot + 30 := rfl

/-- C10: `post_blinds` deducts the blinds with no stack check, so
`start_game` (which posts them) leaves the small blind 10 chips and the big
blind 20 chips poorer unconditionally and adds 30 to the pot; a small blind
holding fewer than 10 chips therefore ends with a NEGATIVE stack. -/
theorem thm_C10_blinds_unconditional (g : GameState)
    (h2 : 2 ≤ g.players.length)
    (hsb : (getP g.players
      ((g.dealer_index + 1) % g.players.length)).chips < 10) :
    (getP (start_game g).players
        ((g.dealer_index + 1) % g.players.length)).chips
      = (getP g.players ((g.dealer_index + 1) % g.players.length)).chips
        - 10 ∧
    (getP (start_game g).players
        ((g.dealer_index + 2) % g.players.length)).chips
      = (getP g.players ((g.dealer_index + 2) % g.players.length)).chips
        - 20 ∧
    (start_game g).pot = g.pot + 30 ∧
    (getP (start_game g).players
      ((g.dealer_index + 1) % g.players.length)).chips < 0 := by
  have hn : 0 < g.players.length := by omega
  set n := g.players.length with hnn
  set sbi := (g.dealer_index + 1) % n with hsbi
  set bbi := (g.dealer_index + 2) % n with hbbi
  have hsblt : sbi < n := Nat.mod_lt _ hn
  have hbblt : bbi < n := Nat.mod_lt _ hn
  have hne : sbi ≠ bbi := sb_ne_bb g.dealer_index n h2
  have hlen : (dealHands g).players.length = n := dealHands_players_length g
  have hdd : (dealHands g).dealer_index = g.dealer_index := rfl
  have hchip : ∀ i, i < n →
      (getP (dealHands g).players i).chips = (getP g.players i).chips := by
    intro i hi
    have := dealHands_getP g i hi
    exact congrArg (fun t => t.2.1) this
  have hps : (start_game g).players = (post_blinds (dealHands g)).players :=
    start_game_players g
  have hkey : ∀ j, j < n →
      (getP (post_blinds (dealHands g)).players j).chips
        = (if j = sbi then (getP (dealHands g).players j).chips - 10
           else if j = bbi then (getP (dealHands g).players j).chips - 20
           else (getP (dealHands g).players j).chips) := by
    intro j hj
    unfold post_blinds
    dsimp only
    rw [hdd, hlen, ← hsbi, ← hbbi]
    by_cases hjs : j = sbi
    · subst hjs
      rw [if_pos rfl]
      unfold getP
      rw [getD_modifyAt_ne _ _ _ _ _ (Ne.symm hne),
        getD_modifyAt_self _ _ _ _ (by rw [hlen]; exact hsblt)]
    · rw [if_neg hjs]
      by_cases hjb : j = bbi
      · subst hjb
        rw [if_pos rfl]
        unfold getP
        rw [getD_modifyAt_self _ _ _ _
          (by rw [modifyAt_length, hlen]; exact hbblt)]
        rw [getD_modifyAt_ne _ _ _ _ _ hne]
      · rw [if_neg hjb]
        unfold getP
        rw [getD_modifyAt_ne _ _ _ _ _ (fun h => hjb h.symm),
          getD_modifyAt_ne _ _ _ _ _ (fun h => hjs h.symm)]
  have e1 : (getP (start_game g).players sbi).chips
      = (getP g.players sbi).chips - 10 := by
    rw [hps, hkey sbi hsblt, if_pos rfl, hchip sbi hsblt]
  have e2 : (getP (start_game g).players bbi).chips
      = (getP g.players bbi).chips - 20 := by
    rw [hps, hkey bbi hbblt, if_neg (Ne.symm hne), if_pos rfl,
      hchip bbi hbblt]
  refine ⟨e1, e2, ?_, ?_⟩
  · rw [start_game_pot, post_blinds_pot, dealHands_pot]
  · rw [e1]; omega

/-- C10 witness: in `gC10` the small blind (seat 1) holds 5 chips and
`start_game` leaves that player with a negative stack. -/
theorem thm_C10_witness :
    (getP (start_game gC10).players
      ((gC10.dealer_index + 1) % gC10.players.length)).chips < 0 :=
  (thm_C10_blinds_unconditional gC10 (by decide) (by decide)).2.2.2

/-! ## Rejection lemmas for `take_action` -/

theorem afterAction_no_false (g : GameState) (msg m : String) :
    (afterAction g msg).2 ≠ PyResult.ret false m := by
  unfold afterAction
  dsimp only
  split
  · split <;> simp
  · split
    · split
      · simp
      · split
        · simp
        · split <;> simp
    · simp

/-- C7: an out-of-turn action is rejected with the not-your-turn message and
the returned state is exactly the input state; more generally EVERY rejected
action (`success = False`) returns the input state unchanged. -/
theorem thm_C7_rejections_leave_state :
    (∀ g nm act amt, g.current_turn_index < g.players.length →
      (getP g.players g.current_turn_index).name ≠ nm →
      take_action g nm act amt
        = (g, PyResult.ret false ("It is not your turn."))) ∧
    (∀ g nm act amt g2 m,
      take_action g nm act amt = (g2, PyResult.ret false m) → g2 = g) := by
  constructor
  · intro g nm act amt h1 h2
    unfold take_action
    rw [if_neg (by omega), if_pos h2]
  · intro g nm act amt g2 m h
    unfold take_action at h
    dsimp only at h
    split at h
    · injection h with hA hB
      exact absurd hB (by simp)
    · split at h
      · injection h with hA hB
        exact hA.symm
      · split at h
        · exact absurd (congrArg Prod.snd h) (afterAction_no_false _ _ m)
        · split at h
          · split at h
            · injection h with hA hB
              exact hA.symm
            · split at h
              · injection h with hA hB
                exact hA.symm
              · exact absurd (congrArg Prod.snd h) (afterAction_no_false _ _ m)
          · injection h with hA hB
            exact hA.symm

/-- C7 witness: in the started game `gW` (turn with player A) an action by B
is rejected as out of turn with the state returned unchanged. -/
theorem thm_C7_witness :
    take_action gW "B" "fold" 0
      = (gW, PyResult.ret false ("It is not your turn.")) :=
  thm_C7_rejections_leave_state.1 gW "B" "fold" 0 (by decide) (by decide)

theorem min_msg_ne (x : String) :
    ("Minimum required bet is " ++ x) ≠ "Insufficient chips for that bet." := by
  intro h
  have h2 := congrArg String.data h
  rw [String.data_append] at h2
  have h3 := congrArg List.head? h2
  rw [List.head?_append] at h3
  simp at h3

/-- C6: an in-turn bet is rejected with the below-minimum message EXACTLY
when `amount < target - current_bet` and `amount` is not the whole stack
(all-in exception); a bet above the stack is always rejected, and is
rejected with the insufficient-chips message whenever the (earlier)
below-minimum check does not fire first. -/
theorem thm_C6_bet_rejection_conditions (g : GameState) (amt : Int)
    (h1 : g.current_turn_index < g.players.length) :
    (take_action g ((getP g.players g.current_turn_index).name) "bet" amt
        = (g, PyResult.ret false
          ("Minimum required bet is "
            ++ toString (g.current_bet
              - (getP g.players g.current_turn_index).current_bet)
            ++ " chips to call, unless going all-in."))
      ↔ (amt < g.current_bet
            - (getP g.players g.current_turn_index).current_bet
          ∧ amt ≠ (getP g.players g.current_turn_index).chips)) ∧
    ((getP g.players g.current_turn_index).chips < amt →
      ∃ m, take_action g ((getP g.players g.current_turn_index).name) "bet" amt
        = (g, PyResult.ret false m)) ∧
    ((getP g.players g.current_turn_index).chips < amt →
      ¬(amt < g.current_bet
            - (getP g.players g.current_turn_index).current_bet
          ∧ amt ≠ (getP g.players g.current_turn_index).chips) →
      take_action g ((getP g.players g.current_turn_index).name) "bet" amt
        = (g, PyResult.ret false ("Insufficient chips for that bet."))) := by
  have hu : take_action g ((getP g.players g.current_turn_index).name) "bet" amt
      = (if amt < g.current_bet
            - (getP g.players g.current_turn_index).current_bet
          ∧ amt ≠ (getP g.players g.current_turn_index).chips then
          (g, PyResult.ret false
            ("Minimum required bet is "
              ++ toString (g.current_bet
                - (getP g.players g.current_turn_index).current_bet)
              ++ " chips to call, unless going all-in."))
        else if (getP g.players g.current_turn_index).chips < amt then
          (g, PyResult.ret false ("Insufficient chips for that bet."))
        else
          afterAction (betApply g amt)
            ((getP g.players g.current_turn_index).name ++ " bets "
              ++ toString amt ++ " chips.")) := by
    unfold take_action
    rw [if_neg (by omega), if_neg (by simp), if_neg (by decide), if_pos rfl]
  refine ⟨?_, ?_, ?_⟩
  · by_cases hc : amt < g.current_bet
        - (getP g.players g.current_turn_index).current_bet
      ∧ amt ≠ (getP g.players g.current_turn_index).chips
    · rw [hu, if_pos hc]
      exact iff_of_true rfl hc
    · rw [hu, if_neg hc]
      apply iff_of_false _ hc
      by_cases hi : (getP g.players g.current_turn_index).chips < amt
      · rw [if_pos hi]
        intro h
        injection h with hA hB
        injection hB with hS hM
        exact min_msg_ne _ hM.symm
      · rw [if_neg hi]
        intro h
        exact afterAction_no_false _ _ _ (congrArg Prod.snd h)
  · intro hlt
    by_cases hc : amt < g.current_bet
        - (getP g.players g.current_turn_index).current_bet
      ∧ amt ≠ (getP g.players g.current_turn_index).chips
    · exact ⟨_, by rw [hu, if_pos hc]⟩
    · exact ⟨_, by rw [hu, if_neg hc, if_pos hlt]⟩
  · intro hlt hnc
    rw [hu, if_neg hnc, if_pos hlt]

/-- C6 witness: in `gW` (target 20, turn with A who has bet 0 of 1000
chips), a bet of 5 is rejected with the below-minimum message. -/
theorem thm_C6_witness :
    take_action gW ((getP gW.players gW.current_turn_index).name) "bet" 5
      = (gW, PyResult.ret false
        ("Minimum required bet is "
          ++ toString (gW.current_bet
            - (getP gW.players gW.current_turn_index).current_bet)
          ++ " chips to call, unless going all-in.")) :=
  (thm_C6_bet_rejection_conditions gW 5 (by decide)).1.mpr (by decide)

/-- C5 (amended): `take_action` never consults the phase when validating or
applying an action.  Whatever the phase — showdown included — an in-turn
bet that meets the usual requirements, leaves more than one active player
and does not complete the betting round is accepted and the state advances
to `next_turn (betApply ...)`.  Showdown is terminal only at the server
layer, which deletes the game. -/
theorem thm_C5_no_phase_guard (g : GameState) (nm : String) (amt : Int)
    (h1 : g.current_turn_index < g.players.length)
    (h2 : (getP g.players g.current_turn_index).name = nm)
    (h3 : g.current_bet - (getP g.players g.current_turn_index).current_bet
      ≤ amt)
    (h4 : amt ≤ (getP g.players g.current_turn_index).chips)
    (h5 : countActive (betApply g amt) ≠ 1)
    (h6 : is_betting_round_complete (next_turn (betApply g amt)) = false) :
    ∃ m, take_action g nm "bet" amt
      = (next_turn (betApply g amt), PyResult.ret true m) := by
  refine ⟨(nm ++ " bets " ++ toString amt ++ " chips.") ++ " Next turn: "
    ++ (getP (next_turn (betApply g amt)).players
         (next_turn (betApply g amt)).current_turn_index).name ++ ".", ?_⟩
  unfold take_action
  dsimp only
  rw [if_neg (by omega), if_neg (by rw [h2]; simp), if_neg (by decide),
    if_pos rfl, if_neg (by omega), if_neg (by omega)]
  unfold afterAction
  dsimp only
  rw [if_neg h5, if_neg (by rw [h6]; decide)]

/-- C5 witness: the no-phase-guard theorem applied at the concrete showdown
state `gC5`, where the in-turn bet of 10 is accepted. -/
theorem thm_C5_witness :
    ∃ m, take_action gC5 "A" "bet" 10
      = (next_turn (betApply gC5 10), PyResult.ret true m) :=
  thm_C5_no_phase_guard gC5 "A" 10 (by decide) (by decide) (by decide)
    (by decide) (by decide) (by decide)

/-! ## Effect lemmas for the turn/phase helpers -/

theorem findActive_lt (ps : List PPlayer) (base : Nat) :
    ∀ i fuel idx, findActiveFrom ps base i fuel = some idx →
      0 < ps.length → idx < ps.length := by
  intro i fuel
  induction fuel generalizing i with
  | zero => intro idx h; simp [findActiveFrom] at h
  | succ m ih =>
    intro idx h hn
    unfold findActiveFrom at h
    dsimp only at h
    split at h
    · injection h with h
      rw [← h]
      exact Nat.mod_lt _ hn
    · exact ih (i + 1) idx h hn

theorem findActive_spec (ps : List PPlayer) (base : Nat) :
    ∀ i fuel idx, findActiveFrom ps base i fuel = some idx →
      ∃ k, i ≤ k ∧ k < i + fuel ∧ idx = (base + k) % ps.length ∧
        (getP ps idx).active = true ∧
        ∀ j, i ≤ j → j < k →
          (getP ps ((base + j) % ps.length)).active = false := by
  intro i fuel
  induction fuel generalizing i with
  | zero => intro idx h; simp [findActiveFrom] at h
  | succ m ih =>
    intro idx h
    unfold findActiveFrom at h
    dsimp only at h
    split at h
    case isTrue hact =>
      injection h with h
      subst h
      exact ⟨i, le_refl i, by omega, rfl, hact, fun j hj1 hj2 => by omega⟩
    case isFalse hact =>
      obtain ⟨k, hk1, hk2, hk3, hk4, hk5⟩ := ih (i + 1) idx h
      refine ⟨k, by omega, by omega, hk3, hk4, ?_⟩
      intro j hj1 hj2
      rcases Nat.eq_or_lt_of_le hj1 with hj | hj
      · subst hj
        simpa using hact
      · exact hk5 j (by omega) hj2

theorem next_turn_fields (g : GameState) :
    (next_turn g).players = g.players ∧ (next_turn g).pot = g.pot ∧
    (next_turn g).phase = g.phase ∧
    (next_turn g).current_bet = g.current_bet ∧
    (next_turn g).dealer_index = g.dealer_index := by
  unfold next_turn
  split <;> exact ⟨rfl, rfl, rfl, rfl, rfl⟩

theorem next_turn_lt (g : GameState)
    (h : g.current_turn_index < g.players.length) :
    (next_turn g).current_turn_index < g.players.length := by
  unfold next_turn
  split
  · exact findActive_lt g.players g.current_turn_index 1 g.players.length _
      (by assumption) (by omega)
  · exact h

theorem set_next_turn_fields (g : GameState) :
    (set_next_turn g).players = g.players ∧ (set_next_turn g).pot = g.pot ∧
    (set_next_turn g).phase = g.phase ∧
    (set_next_turn g).current_bet = g.current_bet ∧
    (set_next_turn g).dealer_index = g.dealer_index := by
  unfold set_next_turn
  split <;> exact ⟨rfl, rfl, rfl, rfl, rfl⟩

theorem set_next_turn_lt (g : GameState)
    (h : g.current_turn_index < g.players.length) :
    (set_next_turn g).current_turn_index < g.players.length := by
  unfold set_next_turn
  split
  · exact findActive_lt g.players (g.dealer_index + 1) 0 g.players.length _
      (by assumption) (by omega)
  · exact h

theorem advance_fields (g : GameState) :
    ((advance_phase g).1).players = g.players ∧
    ((advance_phase g).1).pot = g.pot ∧
    ((advance_phase g).1).current_turn_index = g.current_turn_index ∧
    ((advance_phase g).1).current_bet = g.current_bet ∧
    ((advance_phase g).1).dealer_index = g.dealer_index := by
  unfold advance_phase dealCommunity
  split
  · split <;> exact ⟨rfl, rfl, rfl, rfl, rfl⟩
  · split
    · split <;> exact ⟨rfl, rfl, rfl, rfl, rfl⟩
    · split
      · split <;> exact ⟨rfl, rfl, rfl, rfl, rfl⟩
      · split
        · exact ⟨rfl, rfl, rfl, rfl, rfl⟩
        · split
          · exact ⟨rfl, rfl, rfl, rfl, rfl⟩
          · exact ⟨rfl, rfl, rfl, rfl, rfl⟩

theorem advance_phase_preflop (g : GameState) (h : g.phase = "pre-flop") :
    ((advance_phase g).1).phase = "flop" := by
  unfold advance_phase dealCommunity
  rw [if_pos h]
  split <;> rfl

theorem advance_phase_flop (g : GameState) (h : g.phase = "flop") :
    ((advance_phase g).1).phase = "turn" := by
  unfold advance_phase dealCommunity
  rw [if_neg (by rw [h]; decide), if_pos h]
  split <;> rfl

theorem advance_phase_turn (g : GameState) (h : g.phase = "turn") :
    ((advance_phase g).1).phase = "river" := by
  unfold advance_phase dealCommunity
  rw [if_neg (by rw [h]; decide), if_neg (by rw [h]; decide), if_pos h]
  split <;> rfl

theorem advance_phase_river (g : GameState) (h : g.phase = "river") :
    ((advance_phase g).1).phase = "showdown" := by
  unfold advance_phase dealCommunity
  rw [if_neg (by rw [h]; decide), if_neg (by rw [h]; decide),
    if_neg (by rw [h]; decide), if_pos h]

/-! ## Seat-distance arithmetic -/

theorem dist_lt (n a b : Nat) (ha : a < n) (hb : b < n) : dist n a b < n := by
  unfold dist
  split <;> omega

theorem dist_inj (n f a b : Nat) (hf : f < n) (ha : a < n) (hb : b < n)
    (h : dist n f a = dist n f b) : a = b := by
  unfold dist at h
  split_ifs at h <;> omega

theorem add_dist_mod (n a b : Nat) (ha : a < n) (hb : b < n) :
    (a + dist n a b) % n = b := by
  unfold dist
  split
  · rw [show a + (b - a) = b by omega]
    exact Nat.mod_eq_of_lt hb
  · rw [show a + (b + n - a) = b + n by omega, Nat.add_mod_right]
    exact Nat.mod_eq_of_lt hb

theorem mod_two_less (n a k : Nat) (ha : a < n) (hk : k ≤ n) :
    (a + k) % n = if a + k < n then a + k else a + k - n := by
  split
  · exact Nat.mod_eq_of_lt (by assumption)
  · rw [Nat.mod_eq_sub_mod (by omega)]
    exact Nat.mod_eq_of_lt (by omega)

theorem dist_scan (n f t j k : Nat) (_ : 0 < n) (hf : f < n) (ht : t < n)
    (hj : j < n) (h1 : dist n f t ≤ dist n f j) (hk : k ≤ dist n t j) :
    dist n f ((t + k) % n) ≤ dist n f j := by
  have hd : dist n t j < n := dist_lt n t j ht hj
  have hmod := mod_two_less n t k ht (by omega)
  rw [hmod]
  unfold dist at *
  split_ifs at * <;> omega

theorem dist_f_sb (n : Nat) (h2 : 2 ≤ n) : dist n (3 % n) 1 = n - 2 := by
  by_cases hn2 : n = 2
  · subst hn2; decide
  · by_cases hn3 : n = 3
    · subst hn3; decide
    · have h3 : 3 % n = 3 := Nat.mod_eq_of_lt (by omega)
      rw [h3]
      unfold dist
      split <;> omega

theorem dist_f_bb (n : Nat) (h2 : 2 ≤ n) : dist n (3 % n) (2 % n) = n - 1 := by
  by_cases hn2 : n = 2
  · subst hn2; decide
  · by_cases hn3 : n = 3
    · subst hn3; decide
    · have h3 : 3 % n = 3 := Nat.mod_eq_of_lt (by omega)
      have h2m : 2 % n = 2 := Nat.mod_eq_of_lt (by omega)
      rw [h3, h2m]
      unfold dist
      split <;> omega

/-! ## `split_pots` always raises while an active contributor remains -/

theorem contribEntries_getD (g : GameState) (i : Nat)
    (h : i < g.players.length) :
    (contribEntries g).getD i (false, 0)
      = ((getP g.players i).active, (getP g.players i).total_contribution) := by
  unfold contribEntries getP
  rw [List.getD_eq_getElem _ _ (by simpa using h),
    List.getD_eq_getElem _ _ h, List.getElem_map]

theorem split_pots_raises (g : GameState)
    (h : ∃ i, i < g.players.length ∧ (getP g.players i).active = true ∧
      0 < (getP g.players i).total_contribution) :
    split_pots g = Except.error
      ("TypeError: determine_winner() takes 1 positional argument but 2 were given") := by
  obtain ⟨i, hi, ha, hp⟩ := h
  have hmem : ((getP g.players i).active, (getP g.players i).total_contribution)
      ∈ contribEntries g := by
    rw [← contribEntries_getD g i hi]
    exact getD_mem _ _ _ (by simpa [contribEntries] using hi)
  unfold split_pots
  rw [if_pos]
  unfold splitLayers
  have hlen : g.players.length = (g.players.length - 1) + 1 := by omega
  rw [hlen]
  unfold splitLayersAux
  dsimp only
  have hne : posContribs (contribEntries g) ≠ [] := by
    intro hnil
    have : ((getP g.players i).active, (getP g.players i).total_contribution)
        ∈ posContribs (contribEntries g) := by
      unfold posContribs
      rw [List.mem_filter]
      exact ⟨hmem, by simpa using hp⟩
    rw [hnil] at this
    simp at this
  rw [if_neg (by simpa [List.isEmpty_iff] using hne)]
  rw [List.any_cons]
  have helig : ((posContribs (contribEntries g)).filter (·.1)).length ≠ 0 := by
    intro h0
    have hmem2 : ((getP g.players i).active, (getP g.players i).total_contribution)
        ∈ (posContribs (contribEntries g)).filter (·.1) := by
      rw [List.mem_filter]
      refine ⟨?_, by simpa using ha⟩
      unfold posContribs
      rw [List.mem_filter]
      exact ⟨hmem, by simpa using hp⟩
    rw [List.length_eq_zero] at h0
    rw [h0] at hmem2
    simp at hmem2
  simp [helig]

/-! ## Pointwise effect lemmas for fold and bet -/

theorem map_modifyAt (f : α → α) (gf : α → β) (l : List α) (i : Nat)
    (h : ∀ x, gf (f x) = gf x) :
    (modifyAt i f l).map gf = l.map gf := by
  induction l generalizing i with
  | nil => simp [modifyAt]
  | cons x xs ih =>
    cases i with
    | zero => simp [modifyAt, h x]
    | succ n => simp [modifyAt, ih n]

theorem filter_length_modifyAt_pres (f : α → α) (q : α → Bool) (l : List α)
    (i : Nat) (h : ∀ x, q (f x) = q x) :
    ((modifyAt i f l).filter q).length = (l.filter q).length := by
  induction l generalizing i with
  | nil => simp [modifyAt]
  | cons x xs ih =>
    cases i with
    | zero =>
      by_cases hx : q x = true
      · simp [modifyAt, List.filter_cons, hx, h x]
      · simp only [Bool.not_eq_true] at hx
        simp [modifyAt, List.filter_cons, hx, h x]
    | succ n =>
      by_cases hx : q x = true
      · simp [modifyAt, List.filter_cons, hx, ih n]
      · simp only [Bool.not_eq_true] at hx
        simp [modifyAt, List.filter_cons, hx, ih n]

theorem getP_map (f : PPlayer → PPlayer) (l : List PPlayer) (i : Nat)
    (h : i < l.length) : getP (l.map f) i = f (getP l i) := by
  unfold getP
  rw [List.getD_eq_getElem _ _ (by simpa using h),
    List.getD_eq_getElem _ _ h, List.getElem_map]

theorem map_map_proj (f : α → α) (gf : α → β) (l : List α)
    (h : ∀ x, gf (f x) = gf x) :
    (l.map f).map gf = l.map gf := by
  rw [List.map_map]
  exact List.map_congr_left (fun a _ => h a)

theorem foldApply_players (g : GameState) :
    (foldApply g).players
      = modifyAt g.current_turn_index (fun p => { p with active := false })
          g.players := rfl

theorem foldApply_fields (g : GameState) :
    (foldApply g).pot = g.pot ∧ (foldApply g).phase = g.phase ∧
    (foldApply g).current_bet = g.current_bet ∧
    (foldApply g).dealer_index = g.dealer_index ∧
    (foldApply g).current_turn_index = g.current_turn_index ∧
    (foldApply g).players.length = g.players.length :=
  ⟨rfl, rfl, rfl, rfl, rfl, modifyAt_length _ _ _⟩

theorem foldApply_getP (g : GameState)
    (ht : g.current_turn_index < g.players.length) (i : Nat) :
    getP (foldApply g).players i
      = if i = g.current_turn_index
        then { getP g.players i with active := false }
        else getP g.players i := by
  rw [foldApply_players]
  by_cases hi : i = g.current_turn_index
  · subst hi
    rw [if_pos rfl]
    exact getD_modifyAt_self _ _ _ _ ht
  · rw [if_neg hi]
    exact getD_modifyAt_ne _ _ _ _ _ (fun he => hi he.symm)

theorem betApply_players (g : GameState) (amt : Int) :
    (betApply g amt).players
      = modifyAt g.current_turn_index
          (fun p => { p with chips := p.chips - amt,
                             current_bet := p.current_bet + amt,
                             total_contribution := p.total_contribution + amt })
          g.players := by
  unfold betApply
  dsimp only
  split <;> rfl

theorem betApply_fields (g : GameState) (amt : Int) :
    (betApply g amt).pot = g.pot + amt ∧
    (betApply g amt).phase = g.phase ∧
    (betApply g amt).dealer_index = g.dealer_index ∧
    (betApply g amt).current_turn_index = g.current_turn_index ∧
    (betApply g amt).players.length = g.players.length := by
  refine ⟨?_, ?_, ?_, ?_, ?_⟩ <;>
    (unfold betApply; dsimp only; split)
  · rfl
  · rfl
  · rfl
  · rfl
  · rfl
  · rfl
  · rfl
  · rfl
  · exact modifyAt_length _ _ _
  · exact modifyAt_length _ _ _

theorem betApply_target (g : GameState) (amt : Int) :
    (betApply g amt).current_bet
      = if (getP g.players g.current_turn_index).current_bet + amt
          > g.current_bet
        then (getP g.players g.current_turn_index).current_bet + amt
        else g.current_bet := by
  unfold betApply
  dsimp only
  split
  · rfl
  · rfl


theorem betApply_getP (g : GameState) (amt : Int)
    (ht : g.current_turn_index < g.players.length) (i : Nat) :
    getP (betApply g amt).players i
      = if i = g.current_turn_index
        then { getP g.players i with
                chips := (getP g.players i).chips - amt,
                current_bet := (getP g.players i).current_bet + amt,
                total_contribution :=
                  (getP g.players i).total_contribution + amt }
        else getP g.players i := by
  rw [betApply_players]
  by_cases hi : i = g.current_turn_index
  · subst hi
    rw [if_pos rfl]
    exact getD_modifyAt_self _ _ _ _ ht
  · rw [if_neg hi]
    exact getD_modifyAt_ne _ _ _ _ _ (fun he => hi he.symm)

/-! ## Active-count and chip-sum effect lemmas -/

theorem countActive_of_players (g g' : GameState)
    (h : g'.players = g.players) : countActive g' = countActive g := by
  unfold countActive
  rw [h]

theorem countActive_foldApply_ge (g : GameState) :
    countActive g - 1 ≤ countActive (foldApply g) := by
  unfold countActive
  rw [foldApply_players]
  exact (filter_length_modifyAt_pred _ _ _ _).1

theorem countActive_betApply (g : GameState) (amt : Int) :
    countActive (betApply g amt) = countActive g := by
  unfold countActive
  rw [betApply_players]
  exact filter_length_modifyAt_pres _ _ _ _ (fun x => rfl)

theorem chipSum_foldApply (g : GameState) :
    chipSum (foldApply g) = chipSum g := by
  unfold chipSum
  rw [foldApply_players,
    map_modifyAt (fun p => { p with active := false }) (fun x => x.chips)
      g.players g.current_turn_index (fun x => rfl)]
  rfl

theorem chipSum_betApply (g : GameState) (amt : Int)
    (ht : g.current_turn_index < g.players.length) :
    chipSum (betApply g amt) = chipSum g := by
  unfold chipSum
  rw [betApply_players, (betApply_fields g amt).1,
    sum_map_modifyAt _ _ dfltPlayer _ _ ht]
  dsimp only
  ring

theorem contribSum_foldApply (g : GameState) :
    ((foldApply g).players.map (·.total_contribution)).sum
      = (g.players.map (·.total_contribution)).sum := by
  rw [foldApply_players,
    map_modifyAt (fun p => { p with active := false })
      (fun x => x.total_contribution) g.players g.current_turn_index
      (fun x => rfl)]

theorem contribSum_betApply (g : GameState) (amt : Int)
    (ht : g.current_turn_index < g.players.length) :
    ((betApply g amt).players.map (·.total_contribution)).sum
      = (g.players.map (·.total_contribution)).sum + amt := by
  rw [betApply_players, sum_map_modifyAt _ _ dfltPlayer _ _ ht]
  dsimp only
  ring

theorem forall_mem_modifyAt_d {P : α → Prop} (f : α → α) (d : α) (l : List α)
    (i : Nat) (hall : ∀ p ∈ l, P p)
    (hf : i < l.length → P (f (l.getD i d))) :
    ∀ p ∈ modifyAt i f l, P p := by
  induction l generalizing i with
  | nil => intro p hp; simp [modifyAt] at hp
  | cons x xs ih =>
    cases i with
    | zero =>
      intro p hp
      rcases List.mem_cons.mp hp with h | h
      · exact h ▸ hf (by simp)
      · exact hall p (List.mem_cons_of_mem _ h)
    | succ n =>
      intro p hp
      rcases List.mem_cons.mp hp with h | h
      · exact h ▸ hall x (by simp)
      · exact ih n (fun q hq => hall q (List.mem_cons_of_mem _ hq))
          (fun hlt => hf (by simpa using Nat.succ_lt_succ hlt)) p h

/-! ## Facts about zero-contribution active players -/

theorem zero_facts (g : GameState) (hI : Inv g) (i : Nat)
    (hi : i < g.players.length) (hc0 : (getP g.players i).total_contribution = 0) :
    i ≠ 1 ∧ i ≠ 2 % g.players.length ∧ 3 ≤ g.players.length := by
  have h1 : i ≠ 1 := by
    intro he
    rw [he] at hc0
    have := hI.sbC
    omega
  have h2 : i ≠ 2 % g.players.length := by
    intro he
    rw [he] at hc0
    have := hI.bbC
    omega
  refine ⟨h1, h2, ?_⟩
  by_contra hlt
  have hn : g.players.length = 2 := by
    have := hI.twoLe
    omega
  rw [hn] at hi h2
  norm_num at h2
  omega

/-! ## The invariant survives an accepted fold mutation -/

theorem mid_of_fold (g : GameState) (hI : Inv g) : MidInv (foldApply g) := by
  have ht := hI.turnLt
  have hn2 := hI.twoLe
  have hlen : (foldApply g).players.length = g.players.length :=
    (foldApply_fields g).2.2.2.2.2
  have htn : (foldApply g).current_turn_index = g.current_turn_index :=
    (foldApply_fields g).2.2.2.2.1
  have hph : (foldApply g).phase = g.phase := (foldApply_fields g).2.1
  have hcb : (foldApply g).current_bet = g.current_bet :=
    (foldApply_fields g).2.2.1
  have hdl : (foldApply g).dealer_index = g.dealer_index :=
    (foldApply_fields g).2.2.2.1
  have hpot : (foldApply g).pot = g.pot := (foldApply_fields g).1
  refine ⟨?_, ?_, ?_, ?_, ?_, ?_, ?_, ?_, ?_, ?_, ?_, ?_, ?_, ?_, ?_⟩
  · rw [hdl]; exact hI.dIdx
  · rw [hlen]; exact hn2
  · rw [htn, hlen]; exact ht
  · rw [hph]; exact hI.phOk
  · rw [hpot, contribSum_foldApply]; exact hI.potEq
  · rw [foldApply_getP g ht 1]
    split
    · exact hI.sbC
    · exact hI.sbC
  · rw [hlen, foldApply_getP g ht (2 % g.players.length)]
    split
    · exact hI.bbC
    · exact hI.bbC
  · rw [foldApply_players]
    exact forall_mem_modifyAt _ _ _ hI.betsNN (fun p hp => hI.betsNN p hp)
  · rw [foldApply_players]
    exact forall_mem_modifyAt _ _ _
      (fun q hq => by rw [hcb]; exact hI.betsLe q hq)
      (fun q hq => by rw [hcb]; exact hI.betsLe q hq)
  · rw [foldApply_players]
    exact forall_mem_modifyAt _ _ _ hI.betLeC (fun p hp => hI.betLeC p hp)
  · rw [foldApply_players]
    exact forall_mem_modifyAt _ _ _ hI.chipsNN (fun p hp => hI.chipsNN p hp)
  · rw [foldApply_players]
    exact forall_mem_modifyAt _ _ _ hI.fresh1000
      (fun p hp => hI.fresh1000 p hp)
  · rw [hph, hcb]; exact hI.preTarget
  · intro hph2 hact
    rw [hph] at hph2
    rw [hlen] at hact ⊢
    rw [foldApply_getP g ht (2 % g.players.length)] at hact ⊢
    by_cases hbt : 2 % g.players.length = g.current_turn_index
    · rw [if_pos hbt] at hact
      exact absurd hact (by simp)
    · rw [if_neg hbt] at hact ⊢
      exact hI.preBB hph2 hact
  · intro i hi ha hc0
    rw [hlen] at hi
    rw [foldApply_getP g ht i] at ha hc0
    by_cases hit : i = g.current_turn_index
    · rw [if_pos hit] at ha
      exact absurd ha (by simp)
    · rw [if_neg hit] at ha hc0
      obtain ⟨hph0, hsb, hbb, hd1, hd2⟩ := hI.zeroOrd i hi ha hc0
      obtain ⟨hi1, hi2, hn3⟩ := zero_facts g hI i hi hc0
      have hfol : 3 % g.players.length < g.players.length :=
        Nat.mod_lt _ (by omega)
      have htne1 : g.current_turn_index ≠ 1 := by
        intro he
        rw [he, dist_f_sb _ hn2] at hd2
        omega
      have htne2 : g.current_turn_index ≠ 2 % g.players.length := by
        intro he
        rw [he, dist_f_bb _ hn2] at hd2
        omega
      refine ⟨by rw [hph]; exact hph0, ?_, ?_, ?_, ?_⟩
      · rw [foldApply_getP g ht 1, if_neg (fun he => htne1 he.symm)]
        exact hsb
      · rw [hlen, foldApply_getP g ht (2 % g.players.length),
          if_neg (fun he => htne2 he.symm)]
        exact hbb
      · rw [hlen]; exact hd1
      · rw [hlen, htn]
        rcases Nat.eq_or_lt_of_le hd2 with he | hlt
        · exact absurd
            (dist_inj _ _ _ _ hfol ht hi he).symm hit
        · exact hlt

theorem getD_eq_getP (ps : List PPlayer) (i : Nat) :
    ps.getD i dfltPlayer = getP ps i := rfl

/-! ## The invariant survives an accepted bet mutation -/

theorem mid_of_bet (g : GameState) (amt : Int) (hI : Inv g)
    (hr1 : ¬(amt < g.current_bet
        - (getP g.players g.current_turn_index).current_bet
      ∧ amt ≠ (getP g.players g.current_turn_index).chips))
    (hr2 : ¬((getP g.players g.current_turn_index).chips < amt)) :
    MidInv (betApply g amt) := by
  have ht := hI.turnLt
  have hn2 := hI.twoLe
  have hcpm : getP g.players g.current_turn_index ∈ g.players :=
    getD_mem _ _ _ ht
  have hcur0 : 0 ≤ (getP g.players g.current_turn_index).current_bet :=
    hI.betsNN _ hcpm
  have hcurle : (getP g.players g.current_turn_index).current_bet
      ≤ g.current_bet := hI.betsLe _ hcpm
  have hchip0 : 0 ≤ (getP g.players g.current_turn_index).chips :=
    hI.chipsNN _ hcpm
  have hcc : 0 ≤ (getP g.players g.current_turn_index).total_contribution :=
    le_trans hcur0 (hI.betLeC _ hcpm)
  have hamt0 : 0 ≤ amt := by
    by_cases hx : amt < g.current_bet
        - (getP g.players g.current_turn_index).current_bet
    · have hy : amt = (getP g.players g.current_turn_index).chips := by
        by_contra hne
        exact hr1 ⟨hx, hne⟩
      omega
    · omega
  have hlen := (betApply_fields g amt).2.2.2.2
  have htn := (betApply_fields g amt).2.2.2.1
  have hph := (betApply_fields g amt).2.1
  have hdl := (betApply_fields g amt).2.2.1
  have hpot := (betApply_fields g amt).1
  have htge : g.current_bet ≤ (betApply g amt).current_bet := by
    rw [betApply_target]; split <;> omega
  refine ⟨?_, ?_, ?_, ?_, ?_, ?_, ?_, ?_, ?_, ?_, ?_, ?_, ?_, ?_, ?_⟩
  · rw [hdl]; exact hI.dIdx
  · rw [hlen]; exact hn2
  · rw [htn, hlen]; exact ht
  · rw [hph]; exact hI.phOk
  · rw [hpot, contribSum_betApply g amt ht, hI.potEq]
  · rw [betApply_getP g amt ht 1]
    split
    · dsimp only
      have := hI.sbC
      omega
    · exact hI.sbC
  · rw [hlen, betApply_getP g amt ht (2 % g.players.length)]
    split
    · dsimp only
      have := hI.bbC
      omega
    · exact hI.bbC
  · rw [betApply_players]
    exact forall_mem_modifyAt _ _ _ hI.betsNN
      (fun p hp => by dsimp only; have := hI.betsNN p hp; omega)
  · rw [betApply_players]
    refine forall_mem_modifyAt_d _ dfltPlayer _ _
      (fun q hq => le_trans (hI.betsLe q hq) htge) (fun _ => ?_)
    dsimp only
    rw [getD_eq_getP, betApply_target]
    split <;> omega
  · rw [betApply_players]
    exact forall_mem_modifyAt _ _ _ hI.betLeC
      (fun p hp => by dsimp only; have := hI.betLeC p hp; omega)
  · rw [betApply_players]
    refine forall_mem_modifyAt_d _ dfltPlayer _ _ hI.chipsNN (fun _ => ?_)
    dsimp only
    rw [getD_eq_getP]
    omega
  · rw [betApply_players]
    refine forall_mem_modifyAt_d _ dfltPlayer _ _ hI.fresh1000 (fun _ => ?_)
    dsimp only
    rw [getD_eq_getP]
    intro h0
    have h1000 : (getP g.players g.current_turn_index).chips = 1000 :=
      hI.fresh1000 _ hcpm (by omega)
    omega
  · intro hp2
    rw [hph] at hp2
    exact le_trans (hI.preTarget hp2) htge
  · intro hph2 hact
    rw [hph] at hph2
    rw [hlen] at hact ⊢
    rw [betApply_getP g amt ht (2 % g.players.length)] at hact ⊢
    by_cases hbt : 2 % g.players.length = g.current_turn_index
    · rw [if_pos hbt] at hact ⊢
      dsimp only at hact ⊢
      have := hI.preBB hph2 hact
      omega
    · rw [if_neg hbt] at hact ⊢
      exact hI.preBB hph2 hact
  · intro i hi ha hc0
    rw [hlen] at hi
    rw [betApply_getP g amt ht i] at ha hc0
    by_cases hit : i = g.current_turn_index
    · rw [if_pos hit] at ha hc0
      subst hit
      dsimp only at ha hc0
      have hc00 : (getP g.players g.current_turn_index).total_contribution = 0
          ∧ amt = 0 := by
        constructor <;> omega
      obtain ⟨hph0, -, -, -, -⟩ :=
        hI.zeroOrd g.current_turn_index hi ha hc00.1
      have hcur00 : (getP g.players g.current_turn_index).current_bet = 0 := by
        have := hI.betLeC _ hcpm
        omega
      have htarget := hI.preTarget hph0
      have hch1000 : (getP g.players g.current_turn_index).chips = 1000 :=
        hI.fresh1000 _ hcpm hc00.1
      exact absurd ⟨by omega, by omega⟩ hr1
    · rw [if_neg hit] at ha hc0
      obtain ⟨hph0, hsb, hbb, hd1, hd2⟩ := hI.zeroOrd i hi ha hc0
      refine ⟨by rw [hph]; exact hph0, ?_, ?_, ?_, ?_⟩
      · rw [betApply_getP g amt ht 1]
        split
        · dsimp only; exact hsb
        · exact hsb
      · rw [hlen, betApply_getP g amt ht (2 % g.players.length)]
        split
        · dsimp only; exact hbb
        · exact hbb
      · rw [hlen]; exact hd1
      · rw [hlen, htn]
        have hfol : 3 % g.players.length < g.players.length :=
          Nat.mod_lt _ (by omega)
        rcases Nat.eq_or_lt_of_le hd2 with he | hlt
        · exact absurd (dist_inj _ _ _ _ hfol ht hi he).symm hit
        · exact hlt

/-! ## While any active player remains, some active positive contributor
remains (so the settlement call always raises) -/

theorem exists_active_pos_of_mid (g1 : GameState) (hm : MidInv g1)
    (hc : 1 ≤ countActive g1) :
    ∃ i, i < g1.players.length ∧ (getP g1.players i).active = true ∧
      0 < (getP g1.players i).total_contribution := by
  by_cases hz : ∃ i, i < g1.players.length ∧
      (getP g1.players i).active = true ∧
      (getP g1.players i).total_contribution = 0
  · obtain ⟨i, hi, ha, hc0⟩ := hz
    obtain ⟨-, hsb, -, -, -⟩ := hm.zeroOrdS i hi ha hc0
    exact ⟨1, by have := hm.twoLe; omega, hsb, by have := hm.sbC; omega⟩
  · push_neg at hz
    unfold countActive at hc
    have hne : g1.players.filter (·.active) ≠ [] := by
      intro h0
      rw [h0] at hc
      simp at hc
    obtain ⟨p, hp⟩ := List.exists_mem_of_ne_nil _ hne
    obtain ⟨hpm, hpa⟩ := List.mem_filter.mp hp
    obtain ⟨j, hj, hje⟩ := List.mem_iff_getElem.mp hpm
    have hgp : getP g1.players j = p := by
      unfold getP
      rw [List.getD_eq_getElem _ _ hj]
      exact hje
    have hja : (getP g1.players j).active = true := by
      rw [hgp]; simpa using hpa
    refine ⟨j, hj, hja, ?_⟩
    have hz2 := hz j hj hja
    have hcontr0 : 0 ≤ p.total_contribution :=
      le_trans (hm.betsNN p hpm) (hm.betLeC p hpm)
    rw [hgp] at hz2 ⊢
    omega

theorem complete_eq (g : GameState) (h : is_betting_round_complete g = true)
    (i j : Nat) (hi : i < g.players.length) (hj : j < g.players.length)
    (hai : (getP g.players i).active = true)
    (haj : (getP g.players j).active = true) :
    (getP g.players i).current_bet = (getP g.players j).current_bet := by
  unfold is_betting_round_complete at h
  rcases hf : g.players.filter (·.active) with _ | ⟨p, rest⟩
  · have hmi : getP g.players i ∈ g.players.filter (·.active) :=
      List.mem_filter.mpr ⟨getD_mem _ _ _ hi, by simpa using hai⟩
    rw [hf] at hmi
    simp at hmi
  · rw [hf] at h
    have key : ∀ x ∈ g.players.filter (·.active),
        x.current_bet = p.current_bet := by
      intro x hx
      rw [hf] at hx
      rcases List.mem_cons.mp hx with he | he
      · rw [he]
      · simpa using List.all_eq_true.mp h x he
    have hxi : getP g.players i ∈ g.players.filter (·.active) :=
      List.mem_filter.mpr ⟨getD_mem _ _ _ hi, by simpa using hai⟩
    have hxj : getP g.players j ∈ g.players.filter (·.active) :=
      List.mem_filter.mpr ⟨getD_mem _ _ _ hj, by simpa using haj⟩
    rw [key _ hxi, key _ hxj]

/-! ## Inv survives the turn advance (round incomplete) -/

theorem inv_next_turn (g1 : GameState) (hm : MidInv g1)
    (hc : 2 ≤ countActive g1) : Inv (next_turn g1) := by
  obtain ⟨hpl, hpot, hph, hcb, hdl⟩ := next_turn_fields g1
  refine ⟨?_, ?_, ?_, ?_, ?_, ?_, ?_, ?_, ?_, ?_, ?_, ?_, ?_, ?_, ?_, ?_⟩
  · rw [hdl]; exact hm.dIdx
  · rw [hpl]; exact hm.twoLe
  · rw [hpl]; exact next_turn_lt g1 hm.turnLt
  · rw [hph]; exact hm.phOk
  · rw [hpot, hpl]; exact hm.potEq
  · rw [hpl]; exact hm.sbC
  · rw [hpl]; exact hm.bbC
  · rw [hpl]; exact hm.betsNN
  · rw [hpl, hcb]; exact hm.betsLe
  · rw [hpl]; exact hm.betLeC
  · rw [hpl]; exact hm.chipsNN
  · rw [hpl]; exact hm.fresh1000
  · rw [countActive_of_players g1 _ hpl]; exact hc
  · rw [hph, hcb]; exact hm.preTarget
  · rw [hph, hpl]; exact hm.preBB
  · intro i hi ha hc0
    rw [hpl] at hi ha hc0 ⊢
    obtain ⟨hph0, hsb, hbb, hd1, hd2S⟩ := hm.zeroOrdS i hi ha hc0
    refine ⟨by rw [hph]; exact hph0, hsb, hbb, hd1, ?_⟩
    have hn0 : 0 < g1.players.length := by have := hm.twoLe; omega
    rcases hfind : findActiveFrom g1.players g1.current_turn_index 1
        g1.players.length with _ | idx
    · have hnt : next_turn g1 = g1 := by
        unfold next_turn
        rw [hfind]
      rw [hnt]
      exact le_of_lt hd2S
    · have hnt : (next_turn g1).current_turn_index = idx := by
        unfold next_turn
        rw [hfind]
      rw [hnt]
      obtain ⟨k, hk1, hk2, hk3, hk4, hk5⟩ :=
        findActive_spec g1.players g1.current_turn_index 1
          g1.players.length idx hfind
      have hti : g1.current_turn_index ≠ i := by
        intro he
        rw [he] at hd2S
        exact lt_irrefl _ hd2S
      have hklei : k ≤ dist g1.players.length g1.current_turn_index i := by
        by_contra hgt
        push_neg at hgt
        have hdi1 : 1 ≤ dist g1.players.length g1.current_turn_index i := by
          have h1 := hm.turnLt
          unfold dist
          split <;> omega
        have hfalse := hk5 _ hdi1 hgt
        rw [add_dist_mod _ _ _ hm.turnLt hi] at hfalse
        rw [hfalse] at ha
        exact Bool.noConfusion ha
      rw [hk3]
      exact dist_scan _ _ _ _ _ hn0 (Nat.mod_lt _ hn0) hm.turnLt hi
        (le_of_lt hd2S) hklei

/-! ## Inv survives a completed round: phase advance, bet reset, new turn -/

theorem inv_reset (g1 g3 : GameState) (hm : MidInv g1)
    (hc : 2 ≤ countActive g1)
    (hcm : is_betting_round_complete (next_turn g1) = true)
    (eo : Option String)
    (hadv : advance_phase (next_turn g1) = (g3, eo))
    (hns : ¬(g3.phase = "showdown")) :
    Inv (set_next_turn { g3 with
      players := g3.players.map (fun p => { p with current_bet := 0 }),
      current_bet := 0 }) ∧
    chipSum (set_next_turn { g3 with
      players := g3.players.map (fun p => { p with current_bet := 0 }),
      current_bet := 0 }) = chipSum g1 := by
  have hn0 : 0 < g1.players.length := by have := hm.twoLe; omega
  have hg3e : (advance_phase (next_turn g1)).1 = g3 := by rw [hadv]
  have hg3p : g3.players = g1.players := by
    rw [← hg3e, (advance_fields (next_turn g1)).1, (next_turn_fields g1).1]
  have hg3pot : g3.pot = g1.pot := by
    rw [← hg3e, (advance_fields (next_turn g1)).2.1,
      (next_turn_fields g1).2.1]
  have hg3t : g3.current_turn_index = (next_turn g1).current_turn_index := by
    rw [← hg3e, (advance_fields (next_turn g1)).2.2.1]
  have hg3d : g3.dealer_index = g1.dealer_index := by
    rw [← hg3e, (advance_fields (next_turn g1)).2.2.2.2,
      (next_turn_fields g1).2.2.2.2]
  have hntph : (next_turn g1).phase = g1.phase := (next_turn_fields g1).2.2.1
  have hph3 : g3.phase = "flop" ∨ g3.phase = "turn" ∨ g3.phase = "river" := by
    rcases hm.phOk with h | h | h | h
    · left
      rw [← hg3e]
      exact advance_phase_preflop _ (by rw [hntph]; exact h)
    · right; left
      rw [← hg3e]
      exact advance_phase_flop _ (by rw [hntph]; exact h)
    · right; right
      rw [← hg3e]
      exact advance_phase_turn _ (by rw [hntph]; exact h)
    · exact absurd
        (by rw [← hg3e]; exact advance_phase_river _ (by rw [hntph]; exact h))
        hns
  have hnozero : ∀ i, i < g1.players.length →
      (getP g1.players i).active = true →
      ¬((getP g1.players i).total_contribution = 0) := by
    intro i hi ha hc0
    obtain ⟨hph0, hsb, hbb, -, -⟩ := hm.zeroOrdS i hi ha hc0
    have hbbi : 2 % g1.players.length < g1.players.length := Nat.mod_lt _ hn0
    have hbbcur := hm.preBB hph0 hbb
    have hicur : (getP g1.players i).current_bet = 0 := by
      have h1 := hm.betsNN (getP g1.players i)
        (getD_mem g1.players i dfltPlayer hi)
      have h2 := hm.betLeC (getP g1.players i)
        (getD_mem g1.players i dfltPlayer hi)
      omega
    have hpl := (next_turn_fields g1).1
    have hceq := complete_eq (next_turn g1) hcm i (2 % g1.players.length)
      (by rw [hpl]; exact hi) (by rw [hpl]; exact hbbi)
      (by rw [hpl]; exact ha) (by rw [hpl]; exact hbb)
    rw [hpl] at hceq
    omega
  obtain ⟨hpl5, hpot5, hph5, hcb5, hdl5⟩ :=
    set_next_turn_fields { g3 with
      players := g3.players.map (fun p => { p with current_bet := 0 }),
      current_bet := 0 }
  have hlen5 : (set_next_turn { g3 with
      players := g3.players.map (fun p => { p with current_bet := 0 }),
      current_bet := 0 }).players.length = g1.players.length := by
    rw [hpl5]
    dsimp only
    rw [List.length_map, hg3p]
  constructor
  · refine ⟨?_, ?_, ?_, ?_, ?_, ?_, ?_, ?_, ?_, ?_, ?_, ?_, ?_, ?_, ?_, ?_⟩
    · rw [hdl5]
      dsimp only
      rw [hg3d]
      exact hm.dIdx
    · rw [hlen5]
      exact hm.twoLe
    · rw [hlen5]
      have hlitl : ({ g3 with
          players := g3.players.map (fun p => { p with current_bet := 0 }),
          current_bet := 0 } : GameState).players.length
          = g1.players.length := by
        dsimp only
        rw [List.length_map, hg3p]
      have hlitt : ({ g3 with
          players := g3.players.map (fun p => { p with current_bet := 0 }),
          current_bet := 0 } : GameState).current_turn_index
          < ({ g3 with
          players := g3.players.map (fun p => { p with current_bet := 0 }),
          current_bet := 0 } : GameState).players.length := by
        rw [hlitl]
        dsimp only
        rw [hg3t]
        exact next_turn_lt g1 hm.turnLt
      have hres := set_next_turn_lt _ hlitt
      rw [hlitl] at hres
      exact hres
    · rw [hph5]
      dsimp only
      rcases hph3 with h | h | h
      · exact Or.inr (Or.inl h)
      · exact Or.inr (Or.inr (Or.inl h))
      · exact Or.inr (Or.inr (Or.inr h))
    · rw [hpot5, hpl5]
      dsimp only
      rw [map_map_proj (fun p => { p with current_bet := 0 })
        (fun x => x.total_contribution) g3.players (fun p => rfl)]
      rw [hg3p, hg3pot]
      exact hm.potEq
    · rw [hpl5]
      dsimp only
      rw [getP_map _ _ 1 (by rw [hg3p]; have := hm.twoLe; omega)]
      dsimp only
      rw [hg3p]
      exact hm.sbC
    · rw [hlen5, hpl5]
      dsimp only
      rw [getP_map _ _ (2 % g1.players.length)
        (by rw [hg3p]; exact Nat.mod_lt _ hn0)]
      dsimp only
      rw [hg3p]
      exact hm.bbC
    · rw [hpl5]
      dsimp only
      intro p hp
      obtain ⟨q, hq, rfl⟩ := List.mem_map.mp hp
      exact le_refl 0
    · rw [hpl5, hcb5]
      dsimp only
      intro p hp
      obtain ⟨q, hq, rfl⟩ := List.mem_map.mp hp
      exact le_refl 0
    · rw [hpl5]
      dsimp only
      intro p hp
      obtain ⟨q, hq, rfl⟩ := List.mem_map.mp hp
      dsimp only
      rw [hg3p] at hq
      exact le_trans (hm.betsNN q hq) (hm.betLeC q hq)
    · rw [hpl5]
      dsimp only
      intro p hp
      obtain ⟨q, hq, rfl⟩ := List.mem_map.mp hp
      dsimp only
      rw [hg3p] at hq
      exact hm.chipsNN q hq
    · rw [hpl5]
      dsimp only
      intro p hp
      obtain ⟨q, hq, rfl⟩ := List.mem_map.mp hp
      dsimp only
      rw [hg3p] at hq
      exact hm.fresh1000 q hq
    · unfold countActive
      rw [hpl5]
      dsimp only
      rw [filter_length_map (fun p => { p with current_bet := 0 })
        (·.active) g3.players (fun p => rfl), hg3p]
      exact hc
    · intro hpp
      rw [hph5] at hpp
      dsimp only at hpp
      rcases hph3 with h | h | h <;> rw [h] at hpp <;>
        exact absurd hpp (by decide)
    · intro hpp
      rw [hph5] at hpp
      dsimp only at hpp
      rcases hph3 with h | h | h <;> rw [h] at hpp <;>
        exact absurd hpp (by decide)
    · intro i hi ha hc0
      rw [hlen5] at hi
      rw [hpl5] at ha hc0
      dsimp only at ha hc0
      rw [getP_map _ _ i (by rw [hg3p]; exact hi)] at ha hc0
      dsimp only at ha hc0
      rw [hg3p] at ha hc0
      exact absurd hc0 (hnozero i hi ha)
  · unfold chipSum
    rw [hpl5, hpot5]
    dsimp only
    rw [map_map_proj (fun p => { p with current_bet := 0 })
      (fun x => x.chips) g3.players (fun p => rfl)]
    rw [hg3p, hg3pot]

/-! ## Every accepted continuation of a fold/bet preserves Inv and chips -/

theorem afterAction_preserve (g1 : GameState) (m0 : String) (g' : GameState)
    (msg : String) (hm : MidInv g1) (hc1 : 1 ≤ countActive g1)
    (h : afterAction g1 m0 = (g', PyResult.ret true msg)) :
    Inv g' ∧ chipSum g' = chipSum g1 := by
  have hraise := split_pots_raises g1 (exists_active_pos_of_mid g1 hm hc1)
  unfold afterAction at h
  dsimp only at h
  split at h
  case isTrue hcnt =>
    rw [hraise] at h
    injection h with h1 h2
    exact absurd h2 (by simp)
  case isFalse hcnt =>
    have hc2 : 2 ≤ countActive g1 := by omega
    split at h
    case isTrue hcm =>
      split at h
      case h_1 g3 e heq =>
        injection h with h1 h2
        exact absurd h2 (by simp)
      case h_2 g3 heq =>
        split at h
        case isTrue hns =>
          injection h with h1 h2
          subst h1
          exact inv_reset g1 g3 hm hc2 hcm none heq hns
        case isFalse hns =>
          have hg3e : (advance_phase (next_turn g1)).1 = g3 := by rw [heq]
          have hg3p : g3.players = g1.players := by
            rw [← hg3e, (advance_fields (next_turn g1)).1,
              (next_turn_fields g1).1]
          obtain ⟨i, hi, ha, hp⟩ := exists_active_pos_of_mid g1 hm hc1
          have hraise3 := split_pots_raises g3
            ⟨i, by rw [hg3p]; exact hi, by rw [hg3p]; exact ha,
              by rw [hg3p]; exact hp⟩
          rw [hraise3] at h
          injection h with h1 h2
          exact absurd h2 (by simp)
    case isFalse hcm =>
      injection h with h1 h2
      subst h1
      refine ⟨inv_next_turn g1 hm hc2, ?_⟩
      unfold chipSum
      rw [(next_turn_fields g1).1, (next_turn_fields g1).2.1]

/-! ## One accepted action preserves Inv and the chip total -/

theorem inv_astep (g g' : GameState) (hI : Inv g) (h : AStep g g') :
    Inv g' ∧ chipSum g' = chipSum g := by
  obtain ⟨nm, act, amt, msg, h⟩ := h
  unfold take_action at h
  dsimp only at h
  split at h
  · injection h with h1 h2
    exact absurd h2 (by simp)
  · split at h
    · injection h with h1 h2
      exact absurd h2 (by simp)
    · split at h
      case isTrue hfold =>
        have hm := mid_of_fold g hI
        have hc1 : 1 ≤ countActive (foldApply g) := by
          have ha := countActive_foldApply_ge g
          have hb := hI.twoActive
          omega
        have hres := afterAction_preserve (foldApply g) _ g' msg hm hc1 h
        exact ⟨hres.1, by rw [hres.2, chipSum_foldApply]⟩
      case isFalse hnf =>
        split at h
        case isTrue hbet =>
          split at h
          · injection h with h1 h2
            exact absurd h2 (by simp)
          · split at h
            · injection h with h1 h2
              exact absurd h2 (by simp)
            · rename_i hr1 hr2
              have hm := mid_of_bet g amt hI hr1 hr2
              have hc1 : 1 ≤ countActive (betApply g amt) := by
                rw [countActive_betApply]
                have := hI.twoActive
                omega
              have hres := afterAction_preserve (betApply g amt) _ g' msg
                hm hc1 h
              exact ⟨hres.1, by rw [hres.2, chipSum_betApply g amt hI.turnLt]⟩
        case isFalse hnb =>
          injection h with h1 h2
          exact absurd h2 (by simp)

/-! ## The starting state of a fresh game satisfies the invariant -/

theorem mkGame_players_length (names : List String) (deck : List Card) :
    (mkGame names deck).players.length = names.length := by
  simp [mkGame]

theorem sum_map_zero (l : List α) : (l.map (fun _ => (0 : Int))).sum = 0 := by
  induction l with
  | nil => rfl
  | cons x xs ih => simp [ih]

theorem post_blinds_players_length (g : GameState) :
    (post_blinds g).players.length = g.players.length := by
  unfold post_blinds
  dsimp only
  rw [modifyAt_length, modifyAt_length]

theorem start_game_dealer (g : GameState) :
    (start_game g).dealer_index = g.dealer_index := by
  unfold start_game
  dsimp only
  split <;> rfl

theorem start_game_phase (g : GameState) :
    (start_game g).phase = g.phase := by
  unfold start_game
  dsimp only
  split <;> rfl

theorem start_game_turn (g : GameState) :
    (start_game g).current_turn_index
      = if (post_blinds (dealHands g)).players.length = 2 then g.dealer_index
        else (g.dealer_index + 3) %
          (post_blinds (dealHands g)).players.length := by
  unfold start_game
  dsimp only
  split <;> rfl

theorem start_game_cb (g : GameState) :
    (start_game g).current_bet
      = (getP (post_blinds (dealHands g)).players
          ((g.dealer_index + 2) %
            (post_blinds (dealHands g)).players.length)).current_bet := by
  unfold start_game
  dsimp only
  split <;> rfl

theorem dist_self (n a : Nat) : dist n a a = 0 := by
  unfold dist
  simp

theorem dist_f_other (n i : Nat) (h3 : 3 ≤ n) (hi : i < n) (h1 : i ≠ 1)
    (h2 : i ≠ 2) : dist n (3 % n) i ≤ n - 3 := by
  by_cases h : n = 3
  · subst h
    rw [show (3 : Nat) % 3 = 0 from rfl]
    unfold dist
    split <;> omega
  · rw [Nat.mod_eq_of_lt (by omega)]
    unfold dist
    split <;> omega

theorem dealt_getP (names : List String) (deck : List Card) (i : Nat)
    (hi : i < names.length) :
    proj (getP (dealHands (mkGame names deck)).players i)
      = (names.getD i "", 1000, true, 0, 0) := by
  have h1 := dealHands_getP (mkGame names deck) i
    (by rw [mkGame_players_length]; exact hi)
  rw [h1]
  unfold getP
  have hl : i < (names.map mkPlayer).length := by simpa using hi
  show proj ((names.map mkPlayer).getD i dfltPlayer) = _
  rw [List.getD_eq_getElem _ _ hl, List.getElem_map,
    List.getD_eq_getElem names "" hi]
  rfl

theorem dealt_mem (names : List String) (deck : List Card) :
    ∀ p ∈ (dealHands (mkGame names deck)).players,
      p.chips = 1000 ∧ p.active = true ∧ p.current_bet = 0 ∧
        p.total_contribution = 0 := by
  intro p hp
  have hmp : (dealHands (mkGame names deck)).players.map proj
      = (mkGame names deck).players.map proj :=
    dealStep_proj (mkGame names deck).deck (mkGame names deck).players
  have hpp : proj p ∈ (mkGame names deck).players.map proj := by
    rw [← hmp]
    exact List.mem_map_of_mem proj hp
  rw [List.mem_map] at hpp
  obtain ⟨q, hq, hqe⟩ := hpp
  have hq2 : q ∈ names.map mkPlayer := hq
  rw [List.mem_map] at hq2
  obtain ⟨nm, hnm, hqm⟩ := hq2
  rw [← hqm] at hqe
  unfold proj mkPlayer at hqe
  dsimp only at hqe
  simp only [Prod.mk.injEq] at hqe
  exact ⟨hqe.2.1.symm, hqe.2.2.1.symm, hqe.2.2.2.1.symm, hqe.2.2.2.2.symm⟩

theorem post_blinds_getP (g : GameState) (h2 : 2 ≤ g.players.length)
    (j : Nat) (hj : j < g.players.length) :
    getP (post_blinds g).players j
      = (if j = (g.dealer_index + 1) % g.players.length then
          { getP g.players j with
              chips := (getP g.players j).chips - 10,
              current_bet := 10, total_contribution := 10 }
        else if j = (g.dealer_index + 2) % g.players.length then
          { getP g.players j with
              chips := (getP g.players j).chips - 20,
              current_bet := 20, total_contribution := 20 }
        else getP g.players j) := by
  have hn : 0 < g.players.length := by omega
  have hsblt : (g.dealer_index + 1) % g.players.length < g.players.length :=
    Nat.mod_lt _ hn
  have hbblt : (g.dealer_index + 2) % g.players.length < g.players.length :=
    Nat.mod_lt _ hn
  have hne := sb_ne_bb g.dealer_index g.players.length h2
  unfold post_blinds
  dsimp only
  by_cases hjs : j = (g.dealer_index + 1) % g.players.length
  · subst hjs
    rw [if_pos rfl]
    unfold getP
    rw [getD_modifyAt_ne _ _ _ _ _ (Ne.symm hne),
      getD_modifyAt_self _ _ _ _ hsblt]
  · rw [if_neg hjs]
    by_cases hjb : j = (g.dealer_index + 2) % g.players.length
    · subst hjb
      rw [if_pos rfl]
      unfold getP
      rw [getD_modifyAt_self _ _ _ _ (by rw [modifyAt_length]; exact hbblt),
        getD_modifyAt_ne _ _ _ _ _ hne]
    · rw [if_neg hjb]
      unfold getP
      rw [getD_modifyAt_ne _ _ _ _ _ (fun h => hjb h.symm),
        getD_modifyAt_ne _ _ _ _ _ (fun h => hjs h.symm)]

theorem post_blinds_players_eq (names : List String) (deck : List Card) :
    (post_blinds (dealHands (mkGame names deck))).players
      = modifyAt (2 % names.length)
          (fun p => { p with chips := p.chips - 20, current_bet := 20, total_contribution := 20 })
          (modifyAt (1 % names.length)
            (fun p => { p with chips := p.chips - 10, current_bet := 10, total_contribution := 10 })
            (dealHands (mkGame names deck)).players) := by
  have hdd : (dealHands (mkGame names deck)).dealer_index = 0 := rfl
  have hdlen : (dealHands (mkGame names deck)).players.length
      = names.length := by
    rw [dealHands_players_length, mkGame_players_length]
  unfold post_blinds
  dsimp only
  rw [hdd, hdlen]

theorem dealt_contrib_sum (names : List String) (deck : List Card) :
    ((dealHands (mkGame names deck)).players.map
      (·.total_contribution)).sum = 0 := by
  have hmp : (dealHands (mkGame names deck)).players.map proj
      = (mkGame names deck).players.map proj :=
    dealStep_proj (mkGame names deck).deck (mkGame names deck).players
  have h5 := congrArg
    (List.map (fun t : String × Int × Bool × Int × Int => t.2.2.2.2)) hmp
  rw [List.map_map, List.map_map] at h5
  have h6 : (dealHands (mkGame names deck)).players.map
        (·.total_contribution)
      = (mkGame names deck).players.map (·.total_contribution) := h5
  rw [h6]
  show ((names.map mkPlayer).map (·.total_contribution)).sum = 0
  rw [List.map_map]
  exact sum_map_zero names

theorem dealt_chips_sum (names : List String) (deck : List Card) :
    ((dealHands (mkGame names deck)).players.map (·.chips)).sum
      = ((mkGame names deck).players.map (·.chips)).sum := by
  have hmp : (dealHands (mkGame names deck)).players.map proj
      = (mkGame names deck).players.map proj :=
    dealStep_proj (mkGame names deck).deck (mkGame names deck).players
  have h5 := congrArg
    (List.map (fun t : String × Int × Bool × Int × Int => t.2.1)) hmp
  rw [List.map_map, List.map_map] at h5
  have h6 : (dealHands (mkGame names deck)).players.map (·.chips)
      = (mkGame names deck).players.map (·.chips) := h5
  rw [h6]

theorem chipSum_start (names : List String) (deck : List Card)
    (h2 : 2 ≤ names.length) :
    chipSum (start_game (mkGame names deck))
      = chipSum (mkGame names deck) := by
  have hdlen : (dealHands (mkGame names deck)).players.length
      = names.length := by
    rw [dealHands_players_length, mkGame_players_length]
  have hone : 1 % names.length = 1 := Nat.mod_eq_of_lt (by omega)
  have h2lt : 2 % names.length < names.length := Nat.mod_lt _ (by omega)
  unfold chipSum
  rw [start_game_players, start_game_pot, post_blinds_pot, dealHands_pot]
  have hs1 : ((post_blinds (dealHands (mkGame names deck))).players.map
        (·.chips)).sum
      = ((dealHands (mkGame names deck)).players.map (·.chips)).sum
        - 30 := by
    rw [post_blinds_players_eq]
    rw [sum_map_modifyAt (·.chips) _ dfltPlayer _ (2 % names.length)
      (by rw [modifyAt_length, hdlen]; exact h2lt)]
    rw [sum_map_modifyAt (·.chips) _ dfltPlayer _ (1 % names.length)
      (by rw [hdlen, hone]; omega)]
    dsimp only
    ring
  rw [hs1, dealt_chips_sum]
  have hp0 : (mkGame names deck).pot = 0 := rfl
  rw [hp0]
  ring

theorem inv_start (names : List String) (deck : List Card)
    (h2 : 2 ≤ names.length) :
    Inv (start_game (mkGame names deck)) := by
  have hdd : (dealHands (mkGame names deck)).dealer_index = 0 := rfl
  have hdlen : (dealHands (mkGame names deck)).players.length
      = names.length := by
    rw [dealHands_players_length, mkGame_players_length]
  have hpblen : (post_blinds (dealHands (mkGame names deck))).players.length
      = names.length := by
    rw [post_blinds_players_length, hdlen]
  have hps : (start_game (mkGame names deck)).players
      = (post_blinds (dealHands (mkGame names deck))).players :=
    start_game_players _
  have hslen : (start_game (mkGame names deck)).players.length
      = names.length := by
    rw [hps, hpblen]
  have hone : 1 % names.length = 1 := Nat.mod_eq_of_lt (by omega)
  have h2lt : 2 % names.length < names.length := Nat.mod_lt _ (by omega)
  have h1lt : (1 : Nat) < names.length := by omega
  have hne12 : 1 % names.length ≠ 2 % names.length := by
    have h := sb_ne_bb 0 names.length h2
    simpa using h
  have hkey : ∀ j, j < names.length →
      getP (post_blinds (dealHands (mkGame names deck))).players j
        = (if j = 1 % names.length then
            { getP (dealHands (mkGame names deck)).players j with
                chips := (getP (dealHands (mkGame names deck)).players j).chips - 10,
                current_bet := 10, total_contribution := 10 }
          else if j = 2 % names.length then
            { getP (dealHands (mkGame names deck)).players j with
                chips := (getP (dealHands (mkGame names deck)).players j).chips - 20,
                current_bet := 20, total_contribution := 20 }
          else getP (dealHands (mkGame names deck)).players j) := by
    intro j hj
    have h := post_blinds_getP (dealHands (mkGame names deck))
      (by rw [hdlen]; exact h2) j (by rw [hdlen]; exact hj)
    rw [hdd, hdlen] at h
    exact h
  have hchips : ∀ j, j < names.length →
      (getP (dealHands (mkGame names deck)).players j).chips = 1000 :=
    fun j hj => congrArg (fun t => t.2.1) (dealt_getP names deck j hj)
  have hactive : ∀ j, j < names.length →
      (getP (dealHands (mkGame names deck)).players j).active = true :=
    fun j hj => congrArg (fun t => t.2.2.1) (dealt_getP names deck j hj)
  have hcontrib : ∀ j, j < names.length →
      (getP (dealHands (mkGame names deck)).players j).total_contribution
        = 0 :=
    fun j hj => congrArg (fun t => t.2.2.2.2) (dealt_getP names deck j hj)
  have hdmem := dealt_mem names deck
  have hmem1 : ∀ p ∈ modifyAt (1 % names.length)
      (fun p => { p with chips := p.chips - 10, current_bet := 10, total_contribution := 10 })
      (dealHands (mkGame names deck)).players,
      0 ≤ p.current_bet ∧ p.current_bet ≤ 20 ∧
        p.current_bet ≤ p.total_contribution ∧ 980 ≤ p.chips ∧
        (p.total_contribution = 0 → p.chips = 1000) ∧ p.active = true := by
    refine forall_mem_modifyAt _ _ _ ?_ ?_
    · intro p hp
      obtain ⟨hc, ha, hb, ht⟩ := hdmem p hp
      exact ⟨by rw [hb], by rw [hb]; norm_num, by rw [hb, ht],
        by rw [hc]; norm_num, fun _ => hc, ha⟩
    · intro p hp
      obtain ⟨hc, ha, hb, ht⟩ := hdmem p hp
      exact ⟨show (0 : Int) ≤ 10 by norm_num,
        show (10 : Int) ≤ 20 by norm_num,
        show (10 : Int) ≤ 10 by norm_num,
        show 980 ≤ p.chips - 10 by rw [hc]; norm_num,
        fun hz => absurd (show (10 : Int) = 0 from hz) (by norm_num), ha⟩
  have hmem2 : ∀ p ∈ modifyAt (2 % names.length)
      (fun p => { p with chips := p.chips - 20, current_bet := 20, total_contribution := 20 })
      (modifyAt (1 % names.length)
        (fun p => { p with chips := p.chips - 10, current_bet := 10, total_contribution := 10 })
        (dealHands (mkGame names deck)).players),
      0 ≤ p.current_bet ∧ p.current_bet ≤ 20 ∧
        p.current_bet ≤ p.total_contribution ∧ 0 ≤ p.chips ∧
        (p.total_contribution = 0 → p.chips = 1000) ∧ p.active = true := by
    refine forall_mem_modifyAt _ _ _ ?_ ?_
    · intro p hp
      obtain ⟨hb1, hb2, hb3, hb4, hb5, hb6⟩ := hmem1 p hp
      exact ⟨hb1, hb2, hb3, by omega, hb5, hb6⟩
    · intro p hp
      obtain ⟨hb1, hb2, hb3, hb4, hb5, hb6⟩ := hmem1 p hp
      exact ⟨show (0 : Int) ≤ 20 by norm_num,
        show (20 : Int) ≤ 20 by norm_num,
        show (20 : Int) ≤ 20 by norm_num,
        show (0 : Int) ≤ p.chips - 20 by omega,
        fun hz => absurd (show (20 : Int) = 0 from hz) (by norm_num), hb6⟩
  have hcb : (start_game (mkGame names deck)).current_bet = 20 := by
    have hd0 : (mkGame names deck).dealer_index = 0 := rfl
    rw [start_game_cb, hd0, hpblen]
    have hz2 : (0 + 2) % names.length = 2 % names.length := by norm_num
    rw [hz2, hkey (2 % names.length) h2lt,
      if_neg (fun h => hne12 h.symm), if_pos rfl]
  refine ⟨?_, ?_, ?_, ?_, ?_, ?_, ?_, ?_, ?_, ?_, ?_, ?_, ?_, ?_, ?_, ?_⟩
  · rw [start_game_dealer]
    rfl
  · rw [hslen]
    exact h2
  · rw [start_game_turn, hslen, hpblen]
    have hd0 : (mkGame names deck).dealer_index = 0 := rfl
    rw [hd0]
    split
    · omega
    · exact Nat.mod_lt _ (by omega)
  · left
    rw [start_game_phase]
    rfl
  · have hpot : (start_game (mkGame names deck)).pot = 30 := by
      rw [start_game_pot, post_blinds_pot, dealHands_pot]
      show (0 : Int) + 30 = 30
      norm_num
    have hsum : ((post_blinds (dealHands (mkGame names deck))).players.map
        (·.total_contribution)).sum = 30 := by
      rw [post_blinds_players_eq]
      rw [sum_map_modifyAt (·.total_contribution) _ dfltPlayer _
        (2 % names.length) (by rw [modifyAt_length, hdlen]; exact h2lt)]
      rw [sum_map_modifyAt (·.total_contribution) _ dfltPlayer _
        (1 % names.length) (by rw [hdlen, hone]; omega)]
      rw [getD_modifyAt_ne _ _ _ _ _ hne12]
      rw [dealt_contrib_sum]
      dsimp only
      have e1 : ((dealHands (mkGame names deck)).players.getD
          (1 % names.length) dfltPlayer).total_contribution = 0 := by
        rw [getD_eq_getP]
        exact hcontrib _ (by omega)
      have e2 : ((dealHands (mkGame names deck)).players.getD
          (2 % names.length) dfltPlayer).total_contribution = 0 := by
        rw [getD_eq_getP]
        exact hcontrib _ h2lt
      rw [e1, e2]
      norm_num
    rw [hpot, hps, hsum]
  · rw [hps, hkey 1 h1lt, if_pos hone.symm]
  · rw [hps, hpblen, hkey (2 % names.length) h2lt,
      if_neg (fun h => hne12 h.symm), if_pos rfl]
  · intro p hp
    rw [hps, post_blinds_players_eq] at hp
    exact (hmem2 p hp).1
  · intro p hp
    rw [hps, post_blinds_players_eq] at hp
    rw [hcb]
    exact (hmem2 p hp).2.1
  · intro p hp
    rw [hps, post_blinds_players_eq] at hp
    exact (hmem2 p hp).2.2.1
  · intro p hp
    rw [hps, post_blinds_players_eq] at hp
    exact (hmem2 p hp).2.2.2.1
  · intro p hp
    rw [hps, post_blinds_players_eq] at hp
    exact (hmem2 p hp).2.2.2.2.1
  · show 2 ≤ ((start_game (mkGame names deck)).players.filter
      (·.active)).length
    rw [hps, post_blinds_players_eq]
    have hf2 : ((modifyAt (2 % names.length)
        (fun p => { p with chips := p.chips - 20, current_bet := 20, total_contribution := 20 })
        (modifyAt (1 % names.length)
          (fun p => { p with chips := p.chips - 10, current_bet := 10, total_contribution := 10 })
          (dealHands (mkGame names deck)).players)).filter
            (·.active)).length
      = ((modifyAt (1 % names.length)
          (fun p => { p with chips := p.chips - 10, current_bet := 10, total_contribution := 10 })
          (dealHands (mkGame names deck)).players).filter
            (·.active)).length :=
      filter_length_modifyAt_pres _ _ _ _ (fun x => rfl)
    have hf1 : ((modifyAt (1 % names.length)
        (fun p => { p with chips := p.chips - 10, current_bet := 10, total_contribution := 10 })
        (dealHands (mkGame names deck)).players).filter (·.active)).length
      = ((dealHands (mkGame names deck)).players.filter (·.active)).length :=
      filter_length_modifyAt_pres _ _ _ _ (fun x => rfl)
    rw [hf2, hf1]
    have hall : (dealHands (mkGame names deck)).players.filter (·.active)
        = (dealHands (mkGame names deck)).players :=
      List.filter_eq_self.mpr (fun p hp => (hdmem p hp).2.1)
    rw [hall, hdlen]
    exact h2
  · intro hph
    rw [hcb]
  · intro hph hact
    rw [hps, hpblen, hkey (2 % names.length) h2lt,
      if_neg (fun h => hne12 h.symm), if_pos rfl]
  · intro i hi hact hcontribI
    rw [hslen] at hi
    rw [hps] at hact hcontribI
    by_cases hn2 : names.length = 2
    · exfalso
      rw [hkey i hi] at hcontribI
      by_cases hi1 : i = 1 % names.length
      · rw [if_pos hi1] at hcontribI
        exact absurd (show (10 : Int) = 0 from hcontribI) (by norm_num)
      · rw [if_neg hi1] at hcontribI
        by_cases hi2 : i = 2 % names.length
        · rw [if_pos hi2] at hcontribI
          exact absurd (show (20 : Int) = 0 from hcontribI) (by norm_num)
        · rw [hn2] at hi hi1 hi2
          norm_num at hi1 hi2
          omega
    · have h3 : 3 ≤ names.length := by omega
      by_cases hi1 : i = 1 % names.length
      · rw [hkey i hi, if_pos hi1] at hcontribI
        exact absurd (show (10 : Int) = 0 from hcontribI) (by norm_num)
      · by_cases hi2 : i = 2 % names.length
        · rw [hkey i hi, if_neg hi1, if_pos hi2] at hcontribI
          exact absurd (show (20 : Int) = 0 from hcontribI) (by norm_num)
        · have htwo : 2 % names.length = 2 := Nat.mod_eq_of_lt (by omega)
          have hi1n : i ≠ 1 := by rw [hone] at hi1; exact hi1
          have hi2n : i ≠ 2 := by rw [htwo] at hi2; exact hi2
          refine ⟨?_, ?_, ?_, ?_, ?_⟩
          · rw [start_game_phase]
            rfl
          · rw [hps, hkey 1 h1lt, if_pos hone.symm]
            exact congrArg (fun t => t.2.2.1) (dealt_getP names deck 1 h1lt)
          · rw [hps, hpblen, hkey (2 % names.length) h2lt,
              if_neg (fun h => hne12 h.symm), if_pos rfl]
            exact congrArg (fun t => t.2.2.1)
              (dealt_getP names deck (2 % names.length) h2lt)
          · rw [hslen]
            exact dist_f_other names.length i h3 hi hi1n hi2n
          · rw [hslen]
            have hturn : (start_game (mkGame names deck)).current_turn_index
                = 3 % names.length := by
              rw [start_game_turn, hpblen, if_neg hn2]
              have hd0 : (mkGame names deck).dealer_index = 0 := rfl
              rw [hd0]
            rw [hturn, dist_self]
            exact Nat.zero_le _

/-- C2: chip conservation.  For every sequence of accepted actions of a
hand started by `start_game` on a fresh table of at least two players, the
sum of all chip stacks plus the pot (`chipSum`) equals that sum at hand
start: posting the blinds moves chips into the pot without changing the
total, and every accepted fold or bet preserves the total as well (the
settlement paths, which are the only places chips leave the pot, always
raise TypeError before awarding anything and so never yield an accepted
action). -/
theorem thm_C2_chip_conservation (names : List String) (deck : List Card)
    (h2 : 2 ≤ names.length) (g : GameState)
    (hg : Relation.ReflTransGen AStep (start_game (mkGame names deck)) g) :
    chipSum g = chipSum (start_game (mkGame names deck)) ∧
    chipSum g = chipSum (mkGame names deck) := by
  have key : Inv g ∧ chipSum g = chipSum (start_game (mkGame names deck)) := by
    induction hg with
    | refl => exact ⟨inv_start names deck h2, rfl⟩
    | tail hab hbc ih =>
      exact ⟨(inv_astep _ _ ih.1 hbc).1,
        by rw [(inv_astep _ _ ih.1 hbc).2, ih.2]⟩
  exact ⟨key.2, by rw [key.2, chipSum_start names deck h2]⟩

/-- C2 witness: on the three-player table A, B, C with an empty deck, the
state reached by the accepted action (A folds) has the same chip total as
the freshly constructed game. -/
theorem thm_C2_witness :
    chipSum gWA = chipSum (mkGame ["A", "B", "C"] []) :=
  (thm_C2_chip_conservation ["A", "B", "C"] [] (by norm_num) gWA
    (Relation.ReflTransGen.single
      ⟨"A", "fold", 0, "A folds. Next turn: B.", by decide⟩)).2

end Poker
